import Mathlib

/-!
# Verification of the twitter-image-downloader crawl orchestration core

Shallow embedding, in Lean 4, of the concurrent crawl orchestration and
resumable persistence engine of the repository:

* `src/utils/errors.js` — error taxonomy and `isRetryableError`;
* `src/services/parallelTweetProcessor.js` — worker loop, per-item retry,
  global backoff, queue cursor, `processAll`;
* `src/utils/semaphore.js` — counting semaphore / mutex;
* `src/services/pagePoolManager.js` — bounded page pool;
* `src/db/repositories/{tweetRepository,imageRepository,accountRepository}.js`
  and `src/services/progressTracker.js` — upsert / normalization over the
  SQLite tables of `src/db/migrations.js`.

Pure functions of the source become Lean functions; stateful code becomes
explicit state passing or a small-step relation on a state type; JavaScript
exceptions become `Except`-style sum types.  Asynchronous interleaving is
modelled as a trace of atomic steps: a JavaScript synchronous block (no
`await` inside) is one step.
-/

namespace TwitterDownloader

/-! ## Error taxonomy (`src/utils/errors.js`)

One constructor per error class relevant to the orchestration core, plus
`other` for generic `Error`s, carrying whether their message matches one of
the retryable patterns of `isRetryableError` (the final branch of that
function). -/

inductive JsError where
  | rateLimit
  | sessionExpired
  | pageCrashed
  | navigationTimeout
  | tweetNotFound
  | browserDisconnected
  | other (messageMatchesRetryablePattern : Bool)
  deriving DecidableEq, Repr

/-- `isRetryableError` from `src/utils/errors.js`: navigation timeouts,
rate limits, page crashes and session expiry are classified retryable;
tweet-not-found is not; anything else falls through to a message-pattern
check (the network-error `error.code` branch is folded into `other true`,
since those codes are themselves retryable patterns).
`BrowserDisconnectedError` reaches the pattern check and its default message
matches no pattern. -/
def isRetryableError : JsError → Bool
  | .navigationTimeout => true
  | .rateLimit => true
  | .pageCrashed => true
  | .sessionExpired => true
  | .tweetNotFound => false
  | .browserDisconnected => false
  | .other m => m

/-! ## Per-item retry (`ParallelTweetProcessor.processTweetWithRetry`)

The extraction function `processFn` is modelled by a *script*: the list of
outcomes of its successive calls, `Except.ok ()` for a call that returns and
`Except.error e` for a call that throws `e`.  The loop consumes one script
entry per call, so the recursion is structural on the script; a run that
exhausts its script is reported as `stuck` (a modelling artifact: the claims
are settled on scripts long enough to decide the outcome).

The page is taken to stay open throughout (`page.isClosed()` is `false`):
none of the claims concerns an externally closed page. -/

/-- The object returned by `processTweetWithRetry`, minus the constant
`url` field: `success`, the `attempts` counter, and the recorded error of a
failed item (`lastError`). -/
structure TweetResult where
  success : Bool
  attempts : Nat
  error : Option JsError
  deriving DecidableEq, Repr

/-- Outcome of one call to `processTweetWithRetry`, together with the number
of times `triggerGlobalBackoff` was invoked during the call. -/
inductive RetryOut where
  | done (r : TweetResult) (backoffTriggers : Nat)
  | thrown (e : JsError) (backoffTriggers : Nat)
  | stuck
  deriving DecidableEq, Repr

/-- The `for (let attempt = 1; attempt <= maxRetries; attempt++)` loop of
`processTweetWithRetry`.  On `RateLimitError` the code triggers the global
backoff and performs `attempt--; continue`, which together with the loop
update leaves `attempt` unchanged; on `PageCrashedError` the error is
rethrown; a non-retryable error `break`s (the returned record carries
`attempts: this.maxRetries` — the code reports the configured maximum, not
the count of calls made); a retryable error sleeps and moves to the next
attempt.  Loop exit returns a failure record with `attempts: maxRetries`. -/
def retryLoop (maxRetries : Nat) : List (Except JsError Unit) → Nat →
    Option JsError → Nat → RetryOut
  | script, attempt, lastError, triggers =>
    if attempt > maxRetries then
      .done ⟨false, maxRetries, lastError⟩ triggers
    else
      match script with
      | [] => .stuck
      | outcome :: rest =>
        match outcome with
        | .ok _ => .done ⟨true, attempt, none⟩ triggers
        | .error e =>
          if e = .rateLimit then
            retryLoop maxRetries rest attempt (some e) (triggers + 1)
          else if e = .pageCrashed then
            .thrown e triggers
          else if !isRetryableError e then
            .done ⟨false, maxRetries, some e⟩ triggers
          else
            retryLoop maxRetries rest (attempt + 1) (some e) triggers

/-- `processTweetWithRetry` enters the loop at `attempt = 1` with no
recorded error and no backoff triggered yet. -/
def processTweetWithRetry (maxRetries : Nat)
    (script : List (Except JsError Unit)) : RetryOut :=
  retryLoop maxRetries script 1 none 0

example :
    processTweetWithRetry 3 [.error .rateLimit, .ok ()] =
      .done ⟨true, 1, none⟩ 1 := by decide

example :
    processTweetWithRetry 3
      [.error .sessionExpired, .error .sessionExpired, .error .sessionExpired] =
      .done ⟨false, 3, some .sessionExpired⟩ 0 := by decide

example :
    processTweetWithRetry 3 [.error .pageCrashed] = .thrown .pageCrashed 0 := by
  decide

/-! ## The worker loop (`ParallelTweetProcessor.worker`) and `processAll`

Per-run mutable state of a `ParallelTweetProcessor` instance (the fields
assigned in the constructor and reset by `processAll`). -/

/-- An entry of `this.results`: the success path pushes the record returned
by `processTweetWithRetry` (which carries an `attempts` field); the
worker-level `catch` block pushes `{url, success: false, error}` with no
`attempts` field, modelled by `attempts = none`. -/
structure ResultEntry where
  url : String
  success : Bool
  attempts : Option Nat
  error : Option JsError
  deriving DecidableEq, Repr

structure ProcState where
  tweetQueue : List String
  queueIndex : Nat
  processedCount : Nat
  failedCount : Nat
  results : List ResultEntry
  shouldStop : Bool
  isProcessing : Bool
  deriving DecidableEq, Repr

/-- `getNextTweet`: under the queue mutex, read the cursor; if past the end
return `null`, otherwise return the URL at the cursor and increment the
cursor (the item is not removed from the queue). -/
def getNextTweet (s : ProcState) : Option String × ProcState :=
  if h : s.queueIndex < s.tweetQueue.length then
    (some (s.tweetQueue.get ⟨s.queueIndex, h⟩),
      { s with queueIndex := s.queueIndex + 1 })
  else
    (none, s)

/-- `requeueTweet`: under the queue mutex, append the tweet's URL to the end
of the queue. -/
def requeueTweet (url : String) (s : ProcState) : ProcState :=
  { s with tweetQueue := s.tweetQueue ++ [url] }

/-- Behavior of `this.pagePool.acquirePage()` for one worker iteration:
it resolves with a page, resolves with `null` (pool shutting down), or
throws. -/
inductive AcquireOut where
  | ok
  | null
  | throws (e : JsError)
  deriving DecidableEq, Repr

/-- How a worker's `while` loop ends: normal exit (queue drained, pool
shutdown or `shouldStop`), or by an error propagating out of the loop
(the `throw error` for `SessionExpiredError`).  `stuck` is the modelling
artifact of running out of scripted iteration behaviors. -/
inductive WorkerExit where
  | exited
  | threw (e : JsError)
  | stuck
  deriving DecidableEq, Repr

/-- One iteration of the `while (!this.shouldStop)` body of `worker`, after
`getNextTweet` has returned `url` and bumped the cursor, given the
behavior of `acquirePage` and the script of `processFn` outcomes for this
item.  Returns the new state and `none` to keep looping, or `some exit`.

Mirrors the source: an acquire failure requeues the item and continues; a
`null` page breaks out of the loop; a result returned by
`processTweetWithRetry` is pushed and counted; an error thrown by it is
caught — `SessionExpiredError` sets `shouldStop` and is rethrown, any other
error is recorded as a failed result. -/
def workerIteration (maxRetries : Nat) (acquire : AcquireOut)
    (script : List (Except JsError Unit)) (url : String) (s : ProcState) :
    ProcState × Option WorkerExit :=
  match acquire with
  | .throws _ => (requeueTweet url s, none)
  | .null => (s, some .exited)
  | .ok =>
    match processTweetWithRetry maxRetries script with
    | .done r _ =>
      let s1 := { s with
        results := s.results ++ [ResultEntry.mk url r.success (some r.attempts) r.error] }
      if r.success then
        ({ s1 with processedCount := s1.processedCount + 1 }, none)
      else
        ({ s1 with failedCount := s1.failedCount + 1 }, none)
    | .thrown e _ =>
      if e = .sessionExpired then
        ({ s with shouldStop := true }, some (.threw e))
      else
        ({ s with failedCount := s.failedCount + 1,
                  results := s.results ++ [⟨url, false, none, some e⟩] }, none)
    | .stuck => (s, some .stuck)

/-- A single worker draining the queue: each loop iteration first checks
`shouldStop`, then pulls the next tweet (exiting when the cursor is past the
end), then runs `workerIteration` with the next scripted behavior.  The
recursion is structural on the behavior list; each iteration that reaches
the pool consumes one entry. -/
def runWorker (maxRetries : Nat) :
    List (AcquireOut × List (Except JsError Unit)) → ProcState →
    ProcState × WorkerExit
  | behaviors, s =>
    if s.shouldStop then (s, .exited)
    else
      match getNextTweet s with
      | (none, s') => (s', .exited)
      | (some url, s') =>
        match behaviors with
        | [] => (s', .stuck)
        | (acquire, script) :: rest =>
          match workerIteration maxRetries acquire script url s' with
          | (s'', none) => runWorker maxRetries rest s''
          | (s'', some exit) => (s'', exit)

/-- The summary object `processAll` resolves with. -/
structure Summary where
  total : Nat
  processed : Nat
  failed : Nat
  results : List ResultEntry
  deriving DecidableEq, Repr

/-- The state reset performed at the top of `processAll` (after the
`isProcessing` guard): every per-run field is freshly assigned, so the
result does not depend on the prior state at all. -/
def resetForRun (items : List String) : ProcState :=
  { tweetQueue := items, queueIndex := 0, processedCount := 0,
    failedCount := 0, results := [], shouldStop := false,
    isProcessing := true }

/-- Outcome of `await Promise.all(workers)`: all workers resolved, or some
worker rejected with an error; either way the shared state has been mutated
to `s`. -/
inductive RunOutcome where
  | completed (s : ProcState)
  | threw (e : JsError) (s : ProcState)

/-- `processAll`: throws `Error('Already processing tweets')` (a generic
`Error`, here `JsError.other false`) if a run is in progress; otherwise
resets the per-run state, runs the workers (abstracted as `body`), and in
all cases — normal return or exception — clears `isProcessing` in the
`finally` block.  Returns the thrown error or the summary, together with
the instance state after the call. -/
def processAll (items : List String) (body : ProcState → RunOutcome)
    (s : ProcState) : Except JsError Summary × ProcState :=
  if s.isProcessing then
    (.error (.other false), s)
  else
    match body (resetForRun items) with
    | .completed s2 =>
      (.ok ⟨items.length, s2.processedCount, s2.failedCount, s2.results⟩,
        { s2 with isProcessing := false })
    | .threw e s2 => (.error e, { s2 with isProcessing := false })

example :
    runWorker 3 [(.ok, [.error .sessionExpired, .error .sessionExpired,
        .error .sessionExpired])] (resetForRun ["t1"]) =
      (ProcState.mk ["t1"] 1 0 1
          [ResultEntry.mk "t1" false (some 3) (some .sessionExpired)]
          false true,
        .exited) := by decide

example :
    runWorker 3 [(.ok, [.error .pageCrashed])] (resetForRun ["t1"]) =
      (ProcState.mk ["t1"] 1 0 1
          [ResultEntry.mk "t1" false none (some .pageCrashed)]
          false true,
        .exited) := by decide

/-! ## Progress store tables and upserts
(`src/db/migrations.js`, `tweetRepository.js`, `imageRepository.js`)

Tables are lists of rows; `datetime('now')` is an abstract clock value
passed in.  The `tweets` table has `UNIQUE(tweet_id)`, the `images` table
`UNIQUE(tweet_id, image_url)`; SQLite's `INSERT ... ON CONFLICT ... DO
UPDATE` updates the conflicting row in place when one exists and appends a
new row otherwise. -/

/-- A row of the `tweets` table (columns of migration v1, minus the
surrogate `id`, which plays no role in the upsert key). -/
structure TweetRow where
  tweet_id : String
  account_id : Nat
  tweet_url : String
  tweet_date : Option String
  image_count : Nat
  status : String
  processed_at : Nat
  deriving DecidableEq, Repr

/-- A row of the `images` table (minus the surrogate `id`).  `tweet_id` is
the owning tweet's database id. -/
structure ImageRow where
  tweet_id : Nat
  image_url : String
  filename : String
  file_path : Option String
  status : String
  status_reason : Option String
  file_size : Option Nat
  downloaded_at : Option Nat
  deriving DecidableEq, Repr

/-- The argument object of `TweetRepository.create`. -/
structure TweetData where
  tweetId : String
  accountId : Nat
  tweetUrl : String
  tweetDate : Option String
  imageCount : Nat
  status : Option String
  deriving DecidableEq, Repr

/-- The argument object of `ImageRepository.create`. -/
structure ImageData where
  tweetDbId : Nat
  imageUrl : String
  filename : String
  filePath : Option String
  status : String
  statusReason : Option String
  fileSize : Option Nat
  deriving DecidableEq, Repr

/-- The `DO UPDATE SET` clause of `TweetRepository.create`, applied to the
conflicting row: `image_count = excluded.image_count, status =
excluded.status, processed_at = datetime('now')` (all other columns keep
their values). -/
def tweetUpsertRow (now : Nat) (d : TweetData) (r : TweetRow) : TweetRow :=
  if r.tweet_id = d.tweetId then
    { r with image_count := d.imageCount,
             status := d.status.getD "processed",
             processed_at := now }
  else r

/-- `TweetRepository.create`: `INSERT INTO tweets ... ON CONFLICT(tweet_id)
DO UPDATE ...`.  The JS default `status || 'processed'` is `Option.getD`.
`now` is the clock at the statement. -/
def tweetCreate (now : Nat) (d : TweetData) (tbl : List TweetRow) :
    List TweetRow :=
  if tbl.any (fun r => r.tweet_id = d.tweetId) then
    tbl.map (tweetUpsertRow now d)
  else
    tbl ++ [{ tweet_id := d.tweetId, account_id := d.accountId,
              tweet_url := d.tweetUrl, tweet_date := d.tweetDate,
              image_count := d.imageCount,
              status := d.status.getD "processed",
              processed_at := now }]

/-- `ImageRepository.create`: `INSERT INTO images ... ON CONFLICT(tweet_id,
image_url) DO UPDATE SET status = excluded.status, status_reason =
excluded.status_reason, file_size = excluded.file_size, downloaded_at =
CASE WHEN excluded.status = 'downloaded' THEN datetime('now') ELSE
downloaded_at END`.  This is the `DO UPDATE SET` clause applied to the
conflicting row. -/
def imageUpsertRow (now : Nat) (d : ImageData) (r : ImageRow) : ImageRow :=
  if r.tweet_id = d.tweetDbId ∧ r.image_url = d.imageUrl then
    { r with status := d.status,
             status_reason := d.statusReason,
             file_size := d.fileSize,
             downloaded_at :=
               if d.status = "downloaded" then some now else r.downloaded_at }
  else r

/-- `ImageRepository.create`: on conflict of `(tweet_id, image_url)` apply
`imageUpsertRow`; otherwise insert, with `downloaded_at = datetime('now')`
when the incoming status is `'downloaded'` and `NULL` otherwise. -/
def imageCreate (now : Nat) (d : ImageData) (tbl : List ImageRow) :
    List ImageRow :=
  if tbl.any (fun r => r.tweet_id = d.tweetDbId ∧ r.image_url = d.imageUrl) then
    tbl.map (imageUpsertRow now d)
  else
    tbl ++ [{ tweet_id := d.tweetDbId, image_url := d.imageUrl,
              filename := d.filename, file_path := d.filePath,
              status := d.status, status_reason := d.statusReason,
              file_size := d.fileSize,
              downloaded_at :=
                if d.status = "downloaded" then some now else none }]

/-! ## Username normalization and the accounts / runs stores
(`accountRepository.js`, `progressTracker.js`)

Every account-keyed entry point computes
`username.toLowerCase().replace(/^@/, '')` before touching the database:
lowercase first, then strip a single leading `'@'`. -/

/-- `String.prototype.toLowerCase` on one character, restricted to the
ASCII range in which usernames live: `A`–`Z` map to `a`–`z`, everything
else is unchanged. -/
def jsToLowerChar (c : Char) : Char :=
  match c with
  | 'A' => 'a' | 'B' => 'b' | 'C' => 'c' | 'D' => 'd' | 'E' => 'e'
  | 'F' => 'f' | 'G' => 'g' | 'H' => 'h' | 'I' => 'i' | 'J' => 'j'
  | 'K' => 'k' | 'L' => 'l' | 'M' => 'm' | 'N' => 'n' | 'O' => 'o'
  | 'P' => 'p' | 'Q' => 'q' | 'R' => 'r' | 'S' => 's' | 'T' => 't'
  | 'U' => 'u' | 'V' => 'v' | 'W' => 'w' | 'X' => 'x' | 'Y' => 'y'
  | 'Z' => 'z'
  | c => c

/-- `toLowerCase` over a whole string (as a character list). -/
def jsToLower (s : List Char) : List Char := s.map jsToLowerChar

/-- `.replace(/^@/, '')`: remove one leading `'@'` if present (the regex is
anchored and `replace` substitutes only the first match). -/
def stripLeadingAt : List Char → List Char
  | c :: rest => if c = '@' then rest else c :: rest
  | [] => []

/-- The normalization shared by `AccountRepository.getOrCreate`,
`getByUsername`, `getLastTweetId`, `getStats`,
`ProgressTracker.findIncompleteRun`, `startOrResumeRun` and
`getRunHistory`: lowercase, then strip one leading `'@'`. -/
def normalizeUsername (s : List Char) : List Char :=
  stripLeadingAt (jsToLower s)

/-- A row of the `accounts` table (the fields `getOrCreate` reads and
creates; counters and timestamps elided — they play no role in which row a
call addresses). -/
structure AccountRow where
  id : Nat
  username : List Char
  deriving DecidableEq, Repr

/-- `AccountRepository.getOrCreate`: select the row whose `username` equals
the normalized name; if none, insert one.  Returns the addressed row and
the table after the call.  The fresh id stands in for
`lastInsertRowid`. -/
def getOrCreate (freshId : Nat) (username : List Char)
    (tbl : List AccountRow) : AccountRow × List AccountRow :=
  let key := normalizeUsername username
  match tbl.find? (fun r => r.username = key) with
  | some r => (r, tbl)
  | none =>
    let r := AccountRow.mk freshId key
    (r, tbl ++ [r])

/-- A row of the `processing_runs` table, as read by `findIncompleteRun`. -/
structure RunRow where
  id : Nat
  username : List Char
  started_at : Nat
  status : String
  deriving DecidableEq, Repr

/-- `ProgressTracker.findIncompleteRun`: `SELECT * FROM processing_runs
WHERE username = ? AND status = 'in_progress' ORDER BY started_at DESC
LIMIT 1` with the normalized username.  Modelled as the maximal-`started_at`
row among the matches (ties broken by list order, as SQLite's unstable
order is unspecified). -/
def findIncompleteRun (username : List Char) (tbl : List RunRow) :
    Option RunRow :=
  let key := normalizeUsername username
  let hits := tbl.filter (fun r => r.username = key ∧ r.status = "in_progress")
  hits.foldl (fun best r =>
    match best with
    | none => some r
    | some b => if r.started_at > b.started_at then some r else best) none

/-- `AccountRepository.getLastTweetId`: `SELECT last_tweet_id FROM accounts
WHERE username = ?` with the normalized username; the row addressed is the
one whose `username` equals the key. -/
def getLastTweetIdRow (username : List Char) (tbl : List AccountRow) :
    Option AccountRow :=
  tbl.find? (fun r => r.username = normalizeUsername username)

example : normalizeUsername "@Bob".toList = "bob".toList := by decide

example : normalizeUsername "@@bob".toList = "@bob".toList := by decide

/-! ## Global backoff (`triggerGlobalBackoff` / `waitForBackoff`)

Time is an abstract `Nat` of milliseconds; `Date.now()` at the moment a
statement runs is passed in. -/

structure BackoffState where
  backoffUntil : Nat
  deriving DecidableEq, Repr

/-- `triggerGlobalBackoff`: `this.globalBackoffUntil = Date.now() +
this.rateLimitBackoff` — an overwrite of the single shared deadline. -/
def triggerGlobalBackoff (now rateLimitBackoff : Nat) (_s : BackoffState) :
    BackoffState :=
  ⟨now + rateLimitBackoff⟩

/-- `waitForBackoff`, entered at time `now`: if `now <
this.globalBackoffUntil`, sleep the difference; returns the time at which
the worker proceeds past the backoff checkpoint. -/
def waitForBackoff (now : Nat) (s : BackoffState) : Nat :=
  if now < s.backoffUntil then s.backoffUntil else now

/-- A sequence of rate-limit signals at the given times, each running
`triggerGlobalBackoff` with the same configured duration. -/
def triggerMany (rateLimitBackoff : Nat) (ts : List Nat) (s : BackoffState) :
    BackoffState :=
  ts.foldl (fun st t => triggerGlobalBackoff t rateLimitBackoff st) s

/-! ## The page pool (`src/services/pagePoolManager.js`)

Per-slot state: the `pageStatus[i]` value (`'idle' | 'busy' | 'crashed'`)
and `live`, modelling `pages[i] !== null`.  A crashed or externally
closed page is nulled by its event handler, so the dispatch of an
`error`/`close` event and the nulling are taken as one step and a
non-null page is open.

The class state is `slots` plus the FIFO `waiting` array of unresolved
`acquirePage` promises.  On top of it the model tracks, as bookkeeping of
the interleaving semantics rather than fields of the class:

* `holders` — the resolved, not-yet-released `acquirePage` calls, as
  (caller, slot-index) pairs;
* `tasks` — computations suspended on the event loop: an `acquirePage`
  call awaiting `createPage` inside its crashed-slot recreation loop, and
  the stages of a spawned `satisfyWaiting()` run.

A step of the trace semantics is one synchronous block between suspension
points (`await this.createPage(..)` is the only suspension inside the
pool).  Pending tasks may resume at any step, and the synchronous
entry of a spawned `satisfyWaiting()` is itself a schedulable stage, so
the model admits at least every interleaving the event loop can produce.
`cleanup()` is outside the traces considered. -/

inductive SlotStatus where
  | idle
  | busy
  | crashed
  deriving DecidableEq, Repr

structure Slot where
  status : SlotStatus
  live : Bool
  deriving DecidableEq, Repr

/-- A computation suspended at an `await`, or a pending stage of a
`satisfyWaiting()` run:

* `acqRecreating c i` — `acquirePage` by caller `c`, suspended at
  `await this.createPage(i)` in its crashed-slot loop (the slot keeps
  status `'crashed'` until the await returns);
* `satWhile` — a `satisfyWaiting` run about to test its `while`
  condition;
* `satFor j` — the same, about to run iteration `j` of its `for` scan;
* `satRecreating j` — the same, suspended at `await this.createPage(j)`. -/
inductive PoolTask where
  | acqRecreating (c i : Nat)
  | satWhile
  | satFor (j : Nat)
  | satRecreating (j : Nat)
  deriving DecidableEq, Repr

structure PoolState where
  slots : List Slot
  waiting : List Nat
  holders : List (Nat × Nat)
  tasks : List PoolTask
  deriving DecidableEq, Repr

/-- The pool after `initialize()` on a healthy browser: `poolSize` idle
live slots, nobody waiting, nobody holding, nothing suspended. -/
def initPool (n : Nat) : PoolState :=
  ⟨List.replicate n ⟨.idle, true⟩, [], [], []⟩

/-- `pageStatus[i] === 'idle' && pages[i] !== null` — the condition of
`acquirePage`'s first scan and of `satisfyWaiting`'s first arm. -/
def isIdleLive (sl : Slot) : Bool := sl.status = .idle ∧ sl.live

/-- `pageStatus[i] === 'crashed'`. -/
def isCrashed (sl : Slot) : Bool := sl.status = .crashed

/-- Index of the first slot satisfying `p` (the `for` scans). -/
def firstIdxP (p : Slot → Bool) : List Slot → Option Nat
  | [] => none
  | x :: xs => if p x then some 0 else (firstIdxP p xs).map (· + 1)

/-- First index `≥ start` whose slot satisfies `p`: a `for` loop resuming
after a suspension continues with the next indices, against the current
slot table. -/
def firstIdxFrom (p : Slot → Bool) (start : Nat) (l : List Slot) :
    Option Nat :=
  (firstIdxP p (l.drop start)).map (· + start)

/-- `this.pageStatus[i] = st`, leaving `pages[i]` as it is. -/
def setStatus (i : Nat) (st : SlotStatus) (l : List Slot) : List Slot :=
  match l.get? i with
  | some sl => l.set i { sl with status := st }
  | none => l

/-- `this.pageStatus.filter(s => s === 'busy').length`. -/
def busyCount (l : List Slot) : Nat :=
  (l.filter (fun sl => sl.status = .busy)).length

/-- Remove the first pending task satisfying `p`, returning it and the
remaining tasks. -/
def extractTask (p : PoolTask → Bool) : List PoolTask →
    Option (PoolTask × List PoolTask)
  | [] => none
  | t :: ts =>
    if p t then some (t, ts)
    else (extractTask p ts).map (fun r => (r.1, t :: r.2))

def isAcqTaskOf (c : Nat) : PoolTask → Bool
  | .acqRecreating c' _ => c' = c
  | _ => false

def isSatScanTask : PoolTask → Bool
  | .satWhile => true
  | .satFor _ => true
  | _ => false

def isSatRecTask : PoolTask → Bool
  | .satRecreating _ => true
  | _ => false

/-- `acquirePage` by caller `c` (browser connected), run to its first
suspension: take the first idle live slot, marking it `busy` before the
promise resolves; failing that, suspend at `await this.createPage(i)` on
the first crashed slot; failing that, push the caller onto `waiting` —
the promise does not resolve in this step. -/
def acquireStep (c : Nat) (s : PoolState) : PoolState :=
  match firstIdxP isIdleLive s.slots with
  | some i =>
    { s with slots := setStatus i .busy s.slots,
             holders := (c, i) :: s.holders }
  | none =>
    match firstIdxP isCrashed s.slots with
    | some i => { s with tasks := s.tasks ++ [.acqRecreating c i] }
    | none => { s with waiting := s.waiting ++ [c] }

/-- The `await this.createPage(i)` of an `acquirePage` recreation
resolves: the new page is installed, the slot marked `busy`, and the
caller's promise resolves with it. -/
def acqRecreateOkStep (c : Nat) (s : PoolState) : PoolState :=
  match extractTask (isAcqTaskOf c) s.tasks with
  | some (.acqRecreating _ i, rest) =>
    { s with tasks := rest, slots := s.slots.set i ⟨.busy, true⟩,
             holders := (c, i) :: s.holders }
  | _ => s

/-- The `await this.createPage(i)` of an `acquirePage` recreation
rejects: the `catch` logs and the `for` loop continues scanning for
crashed slots from `i + 1`; if none remains, the call falls through to
the `waiting` push. -/
def acqRecreateFailStep (c : Nat) (s : PoolState) : PoolState :=
  match extractTask (isAcqTaskOf c) s.tasks with
  | some (.acqRecreating _ i, rest) =>
    match firstIdxFrom isCrashed (i + 1) s.slots with
    | some j => { s with tasks := rest ++ [.acqRecreating c j] }
    | none => { s with tasks := rest, waiting := s.waiting ++ [c] }
  | _ => s

/-- A page `error` or `close` event for slot `i`: `handlePageError` /
`handlePageClosed` mark the slot `'crashed'` and null its page — whether
it was idle or busy, also while some acquirer still holds it. -/
def crashStep (i : Nat) (s : PoolState) : PoolState :=
  { s with slots := s.slots.set i ⟨.crashed, false⟩ }

/-- The method `releasePage(pageIndex)`: out-of-range indices are ignored;
a still-valid page makes the slot `'idle'` and, if somebody is waiting,
the oldest waiter is popped and the slot re-marked `'busy'` and handed to
it; an invalidated page marks the slot `'crashed'`, nulls it and spawns
`satisfyWaiting()` without awaiting it. -/
def releasePage (i : Nat) (s : PoolState) : PoolState :=
  match s.slots.get? i with
  | none => s
  | some sl =>
    if sl.live then
      let s1 : PoolState := { s with slots := setStatus i .idle s.slots }
      match s1.waiting with
      | [] => s1
      | w :: ws =>
        { s1 with slots := setStatus i .busy s1.slots, waiting := ws,
                  holders := (w, i) :: s1.holders }
    else
      { s with slots := s.slots.set i ⟨.crashed, false⟩,
               tasks := s.tasks ++ [.satWhile] }

/-- Holder `(c, i)` invokes the release callback its acquire resolved
with; the bookkeeping removes the holder and the class runs
`releasePage(i)`.  Each worker calls its callback exactly once, in its
`finally`; a step for a caller that is not an unreleased holder is not a
behavior of that protocol and leaves the state unchanged. -/
def releaseStep (c i : Nat) (s : PoolState) : PoolState :=
  if (c, i) ∈ s.holders then
    releasePage i { s with holders := s.holders.erase (c, i) }
  else s

/-- One dispatch of a pending `satisfyWaiting` stage not suspended on
`createPage` (the oldest such): the `while` test, or one iteration of its
`for` scan.  The idle arm shifts a waiter, marks the slot busy and
resolves the waiter with it, then runs the busy-count test (the `break`
out of the `for` followed by the count check); a crashed slot suspends at
`await this.createPage(j)`; an exhausted scan runs the count test.  A
`shift()` on an empty queue yields `undefined`, so the later
`resolve(...)` call throws inside the async function and aborts the run —
after the `'busy'` assignment that precedes it. -/
def satRunStep (s : PoolState) : PoolState :=
  match extractTask isSatScanTask s.tasks with
  | some (.satWhile, rest) =>
    if s.waiting.isEmpty then { s with tasks := rest }
    else { s with tasks := rest ++ [.satFor 0] }
  | some (.satFor j, rest) =>
    match s.slots.get? j with
    | some sl =>
      if isIdleLive sl then
        match s.waiting with
        | w :: ws =>
          if busyCount (setStatus j .busy s.slots) ≥ s.slots.length then
            { s with slots := setStatus j .busy s.slots, waiting := ws,
                     holders := (w, j) :: s.holders, tasks := rest }
          else
            { s with slots := setStatus j .busy s.slots, waiting := ws,
                     holders := (w, j) :: s.holders,
                     tasks := rest ++ [.satWhile] }
        | [] => { s with slots := setStatus j .busy s.slots, tasks := rest }
      else if isCrashed sl then
        { s with tasks := rest ++ [.satRecreating j] }
      else
        { s with tasks := rest ++ [.satFor (j + 1)] }
    | none =>
      if busyCount s.slots ≥ s.slots.length then { s with tasks := rest }
      else { s with tasks := rest ++ [.satWhile] }
  | _ => s

/-- The `await this.createPage(j)` of a `satisfyWaiting` recreation
resolves: the page is installed, a waiter shifted, the slot marked
`'busy'` and the waiter resolved with it, then the busy-count test runs;
with nobody left waiting the `resolve` call throws after the `'busy'`
assignment, aborting the run. -/
def satRecreateOkStep (s : PoolState) : PoolState :=
  match extractTask isSatRecTask s.tasks with
  | some (.satRecreating j, rest) =>
    match s.waiting with
    | w :: ws =>
      if busyCount (s.slots.set j ⟨.busy, true⟩) ≥ s.slots.length then
        { s with slots := s.slots.set j ⟨.busy, true⟩, waiting := ws,
                 holders := (w, j) :: s.holders, tasks := rest }
      else
        { s with slots := s.slots.set j ⟨.busy, true⟩, waiting := ws,
                 holders := (w, j) :: s.holders,
                 tasks := rest ++ [.satWhile] }
    | [] => { s with slots := s.slots.set j ⟨.busy, true⟩, tasks := rest }
  | _ => s

/-- The `await this.createPage(j)` of a `satisfyWaiting` recreation
rejects: the `catch` logs and the `for` scan continues at `j + 1`. -/
def satRecreateFailStep (s : PoolState) : PoolState :=
  match extractTask isSatRecTask s.tasks with
  | some (.satRecreating j, rest) =>
    { s with tasks := rest ++ [.satFor (j + 1)] }
  | _ => s

/-- The trace alphabet: caller steps (`acquire`, `release`), page-event
steps (`crash`), and resumptions of suspended tasks. -/
inductive PoolStep where
  | acquire (c : Nat)
  | acqRecreateOk (c : Nat)
  | acqRecreateFail (c : Nat)
  | release (c i : Nat)
  | crash (i : Nat)
  | satRun
  | satRecreateOk
  | satRecreateFail
  deriving DecidableEq, Repr

def poolStep : PoolStep → PoolState → PoolState
  | .acquire c, s => acquireStep c s
  | .acqRecreateOk c, s => acqRecreateOkStep c s
  | .acqRecreateFail c, s => acqRecreateFailStep c s
  | .release c i, s => releaseStep c i s
  | .crash i, s => crashStep i s
  | .satRun, s => satRunStep s
  | .satRecreateOk, s => satRecreateOkStep s
  | .satRecreateFail, s => satRecreateFailStep s

def execPool : List PoolStep → PoolState → PoolState
  | [], s => s
  | st :: rest, s => execPool rest (poolStep st s)

/-- `true` for every step except a page `error`/`close` event. -/
def nonCrash : PoolStep → Bool
  | .crash _ => false
  | _ => true

/-- Status of slot `i`. -/
def statusAt (i : Nat) (l : List Slot) : Option SlotStatus :=
  (l.get? i).map Slot.status

/-- Pool exclusivity invariant: no two unreleased acquires hold the same
slot index, and every held slot is marked `'busy'`. -/
def poolInv (s : PoolState) : Prop :=
  s.holders.Pairwise (fun a b => a.2 ≠ b.2) ∧
    ∀ p ∈ s.holders, statusAt p.2 s.slots = some .busy

/-- A pool in which no page has crashed or been closed: every slot is
live and uncrashed, and nothing is suspended on the event loop. -/
def healthy (s : PoolState) : Prop :=
  (∀ sl ∈ s.slots, sl.status ≠ .crashed ∧ sl.live = true) ∧ s.tasks = []

/-- `acquirePage` including its first line, the browser-connectivity
guard: if `this.browser.isConnected()` is false a
`BrowserDisconnectedError` is thrown before any scan or enqueue (first
component `some e`), leaving the pool state untouched; otherwise the call
proceeds as `acquireStep`. -/
def acquirePageChecked (connected : Bool) (c : Nat) (s : PoolState) :
    Option JsError × PoolState :=
  if ¬connected then (some .browserDisconnected, s)
  else (none, acquireStep c s)

/-! ## The counting semaphore (`src/utils/semaphore.js`)

`current` counts permits in use (`getActiveCount`); `waiting` holds the
`resolve` callbacks of blocked `acquire` calls in FIFO order; `woken` holds
callers whose `resolve` has been called but whose continuation (the
`this.current++` after the `await`) has not run yet — in JavaScript that
continuation is a microtask, so other synchronous code can run in between;
`holding` are the callers whose `acquire` has completed. -/

structure SemState where
  maxPermits : Nat
  current : Int
  waiting : List Nat
  woken : List Nat
  holding : List Nat
  deriving DecidableEq, Repr

/-- A fresh `new Semaphore(max)`. -/
def initSem (max : Nat) : SemState :=
  ⟨max, 0, [], [], []⟩

/-- `acquire()` by caller `c`, run to its first suspension: if `current <
max`, increment and return synchronously (the caller holds a permit);
otherwise push the caller's `resolve` onto `waiting`. -/
def semAcquire (c : Nat) (s : SemState) : SemState :=
  if s.current < (s.maxPermits : Int) then
    { s with current := s.current + 1, holding := c :: s.holding }
  else
    { s with waiting := s.waiting ++ [c] }

/-- `release()` by holder `c`: decrement `current` (clamped at 0), and if
callers are waiting, shift the oldest and call its `resolve` — which only
schedules the waiter's continuation; the waiter has not incremented
`current` yet.  A release by a non-holder is outside the `withPermit`
discipline and modelled as a no-op step. -/
def semRelease (c : Nat) (s : SemState) : SemState :=
  if c ∈ s.holding then
    let cur := s.current - 1
    let cur := if cur < 0 then 0 else cur
    match s.waiting with
    | [] => { s with current := cur, holding := s.holding.erase c }
    | w :: ws =>
      { s with current := cur, holding := s.holding.erase c,
               waiting := ws, woken := s.woken ++ [w] }
  else s

/-- The continuation of a woken waiter `c` (the `this.current++` after its
`await` resolves): it runs when the event loop schedules it, possibly after
other `acquire`/`release` calls. -/
def semResume (c : Nat) (s : SemState) : SemState :=
  if c ∈ s.woken then
    { s with woken := s.woken.erase c, current := s.current + 1,
             holding := c :: s.holding }
  else s

inductive SemStep where
  | acquire (c : Nat)
  | release (c : Nat)
  | resume (c : Nat)
  deriving DecidableEq, Repr

def execSem : List SemStep → SemState → SemState
  | [], s => s
  | .acquire c :: rest, s => execSem rest (semAcquire c s)
  | .release c :: rest, s => execSem rest (semRelease c s)
  | .resume c :: rest, s => execSem rest (semResume c s)

example :
    execSem [.acquire 0, .acquire 1, .release 0, .acquire 2, .resume 1]
      (initSem 1) =
      ⟨1, 2, [], [], [1, 2]⟩ := by decide

/-! # Claims -/

/-! ## C2 — session expiry does not abort the run -/

/-- C2: the code does NOT abort the run when the extraction function throws
`SessionExpiredError`.  `isRetryableError` classifies `SessionExpiredError`
as retryable, so `processTweetWithRetry` retries it `maxRetries` times and
returns an ordinary failure record instead of letting it propagate; on a
queue of one item whose extraction always throws `SessionExpiredError`
(page open), the worker records a per-item failure, `shouldStop` stays
`false`, and the worker exits normally — nothing propagates out of
`processAll` as a fatal signal.  This contradicts the `worker` catch branch
that logs "Session expired - stopping all workers", which is unreachable
for errors thrown by the extraction function. -/
theorem sessionExpired_swallowed_as_item_failure :
    isRetryableError .sessionExpired = true ∧
    processTweetWithRetry 3
        [.error .sessionExpired, .error .sessionExpired, .error .sessionExpired] =
      .done ⟨false, 3, some .sessionExpired⟩ 0 ∧
    runWorker 3
        [(.ok, [.error .sessionExpired, .error .sessionExpired,
                .error .sessionExpired])]
        (resetForRun ["t1"]) =
      (ProcState.mk ["t1"] 1 0 1
        [ResultEntry.mk "t1" false (some 3) (some .sessionExpired)]
        false true,
       .exited) := by
  refine ⟨rfl, by decide, by decide⟩

/-! ## C3 — a rate-limited try triggers backoff and is not counted -/

/-- C3 counterexample: extraction rate-limited once then succeeding gives a
result whose `attempts` field is `1`, not `2` as the claim states (the
`attempt--; continue` re-runs the same attempt number, so the rate-limited
try is excluded from the count). -/
theorem rateLimit_attempts_counterexample :
    processTweetWithRetry 3 [.error .rateLimit, .ok ()] =
      .done ⟨true, 1, none⟩ 1 ∧
    processTweetWithRetry 3 [.error .rateLimit, .ok ()] ≠
      .done ⟨true, 2, none⟩ 1 := by
  refine ⟨by decide, by decide⟩

/-- C3 (amended): a rate-limit error triggers the global backoff exactly
once and does not consume a retry attempt — the loop re-enters with the
same attempt counter and one more backoff trigger — and an item whose
extraction is rate-limited once and then succeeds completes successfully
with `attempts = 1` (the rate-limited try excluded) and the backoff set
exactly once. -/
theorem rateLimit_triggers_backoff_not_attempt
    (maxRetries : Nat) (h : 1 ≤ maxRetries)
    (rest : List (Except JsError Unit)) :
    processTweetWithRetry maxRetries (.error .rateLimit :: .ok () :: rest) =
      .done ⟨true, 1, none⟩ 1 ∧
    (∀ (attempt triggers : Nat) (lastError : Option JsError)
        (script : List (Except JsError Unit)), attempt ≤ maxRetries →
      retryLoop maxRetries (.error .rateLimit :: script) attempt lastError
          triggers =
        retryLoop maxRetries script attempt (some .rateLimit) (triggers + 1)) := by
  have h1 : ¬ (1 > maxRetries) := by omega
  constructor
  · unfold processTweetWithRetry
    conv_lhs => unfold retryLoop
    simp only [h1, if_false]
    conv_lhs => unfold retryLoop
    simp [h1]
  · intro attempt triggers lastError script hle
    conv_lhs => unfold retryLoop
    simp [Nat.not_lt.mpr hle]

/-- Witness for C3 (amended) at `maxRetries = 3`, empty tail. -/
theorem rateLimit_triggers_backoff_not_attempt_witness :
    1 ≤ 3 ∧
    (processTweetWithRetry 3 [.error .rateLimit, .ok ()] =
        .done ⟨true, 1, none⟩ 1 ∧
      (∀ (attempt triggers : Nat) (lastError : Option JsError)
          (script : List (Except JsError Unit)), attempt ≤ 3 →
        retryLoop 3 (.error .rateLimit :: script) attempt lastError triggers =
          retryLoop 3 script attempt (some .rateLimit) (triggers + 1))) :=
  ⟨by decide, rateLimit_triggers_backoff_not_attempt 3 (by decide) []⟩

/-! ## C7 — backoff deadline -/

/-- C7: after a rate-limit signal at time `T` with backoff duration `D`, a
worker passing the backoff checkpoint (entered at any time `t`) does not
proceed before `T + D`; a second signal at `T'` with `T < T' < T + D`
overwrites the single shared deadline to exactly `T' + D`; and for any
sequence of signals the deadline is that of the last signal — nothing is
added to any remaining backoff. -/
theorem backoff_deadline_respected_and_overwritten
    (T D T' : Nat) (s : BackoffState) (h1 : T < T') (h2 : T' < T + D) :
    (∀ t, T + D ≤ waitForBackoff t (triggerGlobalBackoff T D s)) ∧
    triggerGlobalBackoff T' D (triggerGlobalBackoff T D s) =
      BackoffState.mk (T' + D) ∧
    (∀ (ts : List Nat) (t0 : Nat) (s0 : BackoffState),
      (triggerMany D (ts ++ [t0]) s0).backoffUntil = t0 + D) := by
  refine ⟨?_, rfl, ?_⟩
  · intro t
    unfold waitForBackoff triggerGlobalBackoff
    dsimp only
    split <;> omega
  · intro ts t0 s0
    simp [triggerMany, List.foldl_append, triggerGlobalBackoff]

/-- Witness for C7 at `T = 100`, `D = 60000`, `T' = 5000`. -/
theorem backoff_deadline_respected_and_overwritten_witness :
    100 < 5000 ∧ 5000 < 100 + 60000 ∧
    ((∀ t, 100 + 60000 ≤
        waitForBackoff t (triggerGlobalBackoff 100 60000 ⟨0⟩)) ∧
      triggerGlobalBackoff 5000 60000 (triggerGlobalBackoff 100 60000 ⟨0⟩) =
        BackoffState.mk (5000 + 60000) ∧
      (∀ (ts : List Nat) (t0 : Nat) (s0 : BackoffState),
        (triggerMany 60000 (ts ++ [t0]) s0).backoffUntil = t0 + 60000)) :=
  ⟨by decide, by decide,
    backoff_deadline_respected_and_overwritten 100 60000 5000 ⟨0⟩
      (by decide) (by decide)⟩

/-! ## C4 — crashed-resource failures and requeueing -/

/-- C4 counterexample: an item whose processing throws `PageCrashedError`
is NOT requeued.  On a queue of one item whose extraction throws
`PageCrashedError`, the worker records a final failed result; afterwards
the item occurs once in the queue (the cursor-based queue never removes
items, so "requeued once more" would mean two occurrences), `failedCount`
is 1, and the worker exits — the requeue path runs only when `acquirePage`
throws, not on a crashed-resource processing failure. -/
theorem pageCrash_not_requeued_counterexample :
    (runWorker 3 [(.ok, [.error .pageCrashed])]
        (resetForRun ["t1"])).1.tweetQueue.count "t1" = 1 ∧
    (runWorker 3 [(.ok, [.error .pageCrashed])]
        (resetForRun ["t1"])).1.results =
      [ResultEntry.mk "t1" false none (some .pageCrashed)] ∧
    runWorker 3 [(.ok, [.error .pageCrashed])] (resetForRun ["t1"]) =
      (ProcState.mk ["t1"] 1 0 1
        [ResultEntry.mk "t1" false none (some .pageCrashed)] false true,
       .exited) := by
  refine ⟨by decide, by decide, by decide⟩

/-- C4 (amended): an item is requeued — appended exactly once to the end of
the queue — precisely when `acquirePage` throws; an item whose processing
throws a crashed-resource error is recorded as a final failed result with
the queue unchanged, never re-entering it. -/
theorem crash_requeue_only_on_acquire_failure
    (maxRetries : Nat) (url : String) (s : ProcState)
    (script : List (Except JsError Unit)) (e : JsError) (triggers : Nat)
    (hcrash : processTweetWithRetry maxRetries script =
      .thrown .pageCrashed triggers) :
    workerIteration maxRetries (.throws e) script url s =
      ({ s with tweetQueue := s.tweetQueue ++ [url] }, none) ∧
    (workerIteration maxRetries (.throws e) script url s).1.tweetQueue.count
        url = s.tweetQueue.count url + 1 ∧
    workerIteration maxRetries .ok script url s =
      ({ s with failedCount := s.failedCount + 1,
                results := s.results ++
                  [ResultEntry.mk url false none (some .pageCrashed)] }, none) ∧
    (workerIteration maxRetries .ok script url s).1.tweetQueue =
      s.tweetQueue := by
  have h3 : workerIteration maxRetries .ok script url s =
      ({ s with failedCount := s.failedCount + 1,
                results := s.results ++
                  [ResultEntry.mk url false none (some .pageCrashed)] }, none) := by
    unfold workerIteration
    rw [hcrash]
    simp
  refine ⟨rfl, ?_, h3, ?_⟩
  · simp [workerIteration, requeueTweet]
  · rw [h3]

/-- Witness for C4 (amended). -/
theorem crash_requeue_only_on_acquire_failure_witness :
    processTweetWithRetry 3 [.error .pageCrashed] = .thrown .pageCrashed 0 ∧
    (workerIteration 3 (.throws (.other false)) [.error .pageCrashed] "t1"
        (resetForRun ["t1"]) =
      ({ resetForRun ["t1"] with tweetQueue := ["t1"] ++ ["t1"] }, none) ∧
    (workerIteration 3 (.throws (.other false)) [.error .pageCrashed] "t1"
        (resetForRun ["t1"])).1.tweetQueue.count "t1" =
      (resetForRun ["t1"]).tweetQueue.count "t1" + 1 ∧
    workerIteration 3 .ok [.error .pageCrashed] "t1" (resetForRun ["t1"]) =
      ({ resetForRun ["t1"] with failedCount := 1,
                                  results := [] ++
                                    [ResultEntry.mk "t1" false none (some .pageCrashed)] }, none) ∧
    (workerIteration 3 .ok [.error .pageCrashed] "t1"
        (resetForRun ["t1"])).1.tweetQueue =
      (resetForRun ["t1"]).tweetQueue) :=
  ⟨by decide,
    crash_requeue_only_on_acquire_failure 3 "t1" (resetForRun ["t1"])
      [.error .pageCrashed] (.other false) 0 (by decide)⟩

/-! ## C9 — acquirePage on a disconnected browser -/

/-- C9: when the underlying browser is disconnected, `acquirePage` throws
`BrowserDisconnectedError` immediately — no slot is returned and the caller
is never added to the waiting list (the whole pool state is untouched). -/
theorem acquirePage_disconnected_throws
    (connected : Bool) (c : Nat) (s : PoolState) (h : connected = false) :
    acquirePageChecked connected c s = (some .browserDisconnected, s) ∧
    (acquirePageChecked connected c s).2.waiting = s.waiting ∧
    (acquirePageChecked connected c s).2.holders = s.holders := by
  subst h
  exact ⟨rfl, rfl, rfl⟩

/-- Witness for C9 on a pool of two idle pages. -/
theorem acquirePage_disconnected_throws_witness :
    false = false ∧
    (acquirePageChecked false 0 (initPool 2) =
        (some .browserDisconnected, initPool 2) ∧
      (acquirePageChecked false 0 (initPool 2)).2.waiting =
        (initPool 2).waiting ∧
      (acquirePageChecked false 0 (initPool 2)).2.holders =
        (initPool 2).holders) :=
  ⟨rfl, acquirePage_disconnected_throws false 0 (initPool 2) rfl⟩

/-! ## C10 — processAll run isolation -/

/-- C10: `processAll` rejects a concurrent call by throwing while the flag
is set and leaves the state untouched; otherwise it resets every per-run
field (queue from the given items, cursor, counters, results and
`shouldStop` zeroed) before running the workers, so the run is independent
of any earlier run's leftovers — two calls from any non-processing states
behave identically — and the `finally` clears `isProcessing` on every exit
path, normal completion and worker exception alike. -/
theorem processAll_resets_state_and_clears_flag
    (items : List String) (body : ProcState → RunOutcome)
    (s s' : ProcState) (h : s.isProcessing = false)
    (h' : s'.isProcessing = false) :
    (processAll items body s).2.isProcessing = false ∧
    processAll items body s = processAll items body s' ∧
    resetForRun items = ProcState.mk items 0 0 0 [] false true ∧
    (∀ sBusy : ProcState, sBusy.isProcessing = true →
      processAll items body sBusy = (.error (.other false), sBusy)) := by
  refine ⟨?_, ?_, rfl, ?_⟩
  · unfold processAll
    simp only [h, Bool.false_eq_true, if_false]
    cases body (resetForRun items) <;> rfl
  · unfold processAll
    simp only [h, h', Bool.false_eq_true, if_false]
  · intro sBusy hB
    unfold processAll
    simp [hB]

/-- Witness for C10: a completed first run and a would-be second run from a
fresh idle state. -/
theorem processAll_resets_state_and_clears_flag_witness :
    (ProcState.mk [] 3 2 1 [] false false).isProcessing = false ∧
    (ProcState.mk ["x"] 0 0 0 [] true false).isProcessing = false ∧
    ((processAll ["a"] RunOutcome.completed
        (ProcState.mk [] 3 2 1 [] false false)).2.isProcessing = false ∧
      processAll ["a"] RunOutcome.completed
          (ProcState.mk [] 3 2 1 [] false false) =
        processAll ["a"] RunOutcome.completed
          (ProcState.mk ["x"] 0 0 0 [] true false) ∧
      resetForRun ["a"] = ProcState.mk ["a"] 0 0 0 [] false true ∧
      (∀ sBusy : ProcState, sBusy.isProcessing = true →
        processAll ["a"] RunOutcome.completed sBusy =
          (.error (.other false), sBusy))) :=
  ⟨rfl, rfl,
    processAll_resets_state_and_clears_flag ["a"] RunOutcome.completed
      (ProcState.mk [] 3 2 1 [] false false)
      (ProcState.mk ["x"] 0 0 0 [] true false) rfl rfl⟩

/-! ## C1 — idempotent upsert for work items and artifacts -/

/-- Number of `tweets` rows with the given unique key. -/
def countTweetKey (k : String) (tbl : List TweetRow) : Nat :=
  (tbl.filter (fun r => r.tweet_id = k)).length

/-- Number of `images` rows with the given unique pair key. -/
def countImageKey (tid : Nat) (u : String) (tbl : List ImageRow) : Nat :=
  (tbl.filter (fun r => r.tweet_id = tid ∧ r.image_url = u)).length

theorem tweetUpsertRow_key (now : Nat) (d : TweetData) (r : TweetRow) :
    (tweetUpsertRow now d r).tweet_id = r.tweet_id := by
  unfold tweetUpsertRow
  split <;> rfl

theorem countTweetKey_map (k : String) (now : Nat) (d : TweetData)
    (tbl : List TweetRow) :
    countTweetKey k (tbl.map (tweetUpsertRow now d)) = countTweetKey k tbl := by
  induction tbl with
  | nil => rfl
  | cons a t ih =>
    by_cases h : a.tweet_id = k <;>
      simp [countTweetKey, List.filter_cons, tweetUpsertRow_key, h] at ih ⊢ <;>
      omega

theorem countTweetKey_zero (k : String) (tbl : List TweetRow)
    (h : tbl.any (fun r => r.tweet_id = k) = false) :
    countTweetKey k tbl = 0 := by
  rw [List.any_eq_false] at h
  simp only [countTweetKey, List.length_eq_zero]
  rw [List.filter_eq_nil]
  intro r hr
  simpa using h r hr

theorem countTweetKey_pos (k : String) (tbl : List TweetRow)
    (h : tbl.any (fun r => r.tweet_id = k) = true) :
    1 ≤ countTweetKey k tbl := by
  rw [List.any_eq_true] at h
  obtain ⟨r, hr, hk⟩ := h
  have hmem : r ∈ tbl.filter (fun r => r.tweet_id = k) :=
    List.mem_filter.2 ⟨hr, hk⟩
  have := List.length_pos.2 (List.ne_nil_of_mem hmem)
  simpa [countTweetKey] using this

theorem countTweetKey_le_one (k : String) (tbl : List TweetRow)
    (h : tbl.Pairwise (fun a b => a.tweet_id ≠ b.tweet_id)) :
    countTweetKey k tbl ≤ 1 := by
  induction tbl with
  | nil => simp [countTweetKey]
  | cons a t ih =>
    rw [List.pairwise_cons] at h
    by_cases ha : a.tweet_id = k
    · have h0 : countTweetKey k t = 0 := by
        apply countTweetKey_zero
        rw [List.any_eq_false]
        intro b hb
        have := h.1 b hb
        simp only [decide_eq_true_eq]
        rw [← ha]
        exact fun hbk => this hbk.symm
      simp only [countTweetKey, List.filter_cons, ha, decide_True, if_true,
        List.length_cons] at *
      omega
    · simp only [countTweetKey, List.filter_cons, ha, decide_False, if_false]
      exact ih h.2

theorem tweetCreate_any (now : Nat) (d : TweetData) (tbl : List TweetRow) :
    (tweetCreate now d tbl).any (fun r => r.tweet_id = d.tweetId) = true := by
  unfold tweetCreate
  by_cases h : tbl.any (fun r => r.tweet_id = d.tweetId)
  · rw [if_pos h, List.any_eq_true]
    rw [List.any_eq_true] at h
    obtain ⟨r, hr, hk⟩ := h
    exact ⟨tweetUpsertRow now d r, List.mem_map_of_mem _ hr,
      by simpa [tweetUpsertRow_key] using hk⟩
  · rw [if_neg h, List.any_eq_true]
    refine ⟨_, List.mem_append_right _ (List.mem_singleton.2 rfl), by simp⟩

theorem tweetCreate_conflict_fields (now : Nat) (d : TweetData)
    (tbl : List TweetRow) (r : TweetRow)
    (hr : r ∈ tbl.map (tweetUpsertRow now d)) (hk : r.tweet_id = d.tweetId) :
    r.status = d.status.getD "processed" ∧ r.image_count = d.imageCount ∧
      r.processed_at = now := by
  obtain ⟨r0, hr0, rfl⟩ := List.mem_map.1 hr
  by_cases h0 : r0.tweet_id = d.tweetId
  · unfold tweetUpsertRow
    rw [if_pos h0]
    exact ⟨rfl, rfl, rfl⟩
  · rw [tweetUpsertRow_key] at hk
    exact absurd hk h0

theorem countTweetKey_first_create (now : Nat) (d : TweetData)
    (tbl : List TweetRow)
    (h : tbl.Pairwise (fun a b => a.tweet_id ≠ b.tweet_id)) :
    countTweetKey d.tweetId (tweetCreate now d tbl) = 1 := by
  unfold tweetCreate
  by_cases h0 : tbl.any (fun r => r.tweet_id = d.tweetId)
  · rw [if_pos h0, countTweetKey_map]
    have := countTweetKey_pos d.tweetId tbl h0
    have := countTweetKey_le_one d.tweetId tbl h
    omega
  · rw [if_neg h0]
    have h1 : countTweetKey d.tweetId tbl = 0 :=
      countTweetKey_zero _ _ (by simpa using h0)
    simp only [countTweetKey, List.filter_append, List.length_append] at h1 ⊢
    simp [h1]

theorem imageUpsertRow_key (now : Nat) (d : ImageData) (r : ImageRow) :
    (imageUpsertRow now d r).tweet_id = r.tweet_id ∧
      (imageUpsertRow now d r).image_url = r.image_url := by
  unfold imageUpsertRow
  split <;> exact ⟨rfl, rfl⟩

theorem countImageKey_map (tid : Nat) (u : String) (now : Nat) (d : ImageData)
    (tbl : List ImageRow) :
    countImageKey tid u (tbl.map (imageUpsertRow now d)) =
      countImageKey tid u tbl := by
  induction tbl with
  | nil => rfl
  | cons a t ih =>
    by_cases h : a.tweet_id = tid ∧ a.image_url = u <;>
      simp [countImageKey, List.filter_cons, (imageUpsertRow_key now d a).1,
        (imageUpsertRow_key now d a).2, h] at ih ⊢ <;>
      omega

theorem countImageKey_zero (tid : Nat) (u : String) (tbl : List ImageRow)
    (h : tbl.any (fun r => r.tweet_id = tid ∧ r.image_url = u) = false) :
    countImageKey tid u tbl = 0 := by
  rw [List.any_eq_false] at h
  simp only [countImageKey, List.length_eq_zero]
  rw [List.filter_eq_nil]
  intro r hr
  simpa using h r hr

theorem countImageKey_pos (tid : Nat) (u : String) (tbl : List ImageRow)
    (h : tbl.any (fun r => r.tweet_id = tid ∧ r.image_url = u) = true) :
    1 ≤ countImageKey tid u tbl := by
  rw [List.any_eq_true] at h
  obtain ⟨r, hr, hk⟩ := h
  have hmem : r ∈ tbl.filter (fun r => r.tweet_id = tid ∧ r.image_url = u) :=
    List.mem_filter.2 ⟨hr, hk⟩
  have := List.length_pos.2 (List.ne_nil_of_mem hmem)
  simpa [countImageKey] using this

theorem countImageKey_le_one (tid : Nat) (u : String) (tbl : List ImageRow)
    (h : tbl.Pairwise
      (fun a b => a.tweet_id ≠ b.tweet_id ∨ a.image_url ≠ b.image_url)) :
    countImageKey tid u tbl ≤ 1 := by
  induction tbl with
  | nil => simp [countImageKey]
  | cons a t ih =>
    rw [List.pairwise_cons] at h
    by_cases ha : a.tweet_id = tid ∧ a.image_url = u
    · have h0 : countImageKey tid u t = 0 := by
        apply countImageKey_zero
        rw [List.any_eq_false]
        intro b hb
        have hne := h.1 b hb
        simp only [decide_eq_true_eq]
        rintro ⟨hb1, hb2⟩
        rcases hne with hne | hne
        · exact hne (ha.1.trans hb1.symm)
        · exact hne (ha.2.trans hb2.symm)
      simp only [countImageKey, List.filter_cons, ha, and_self, decide_True,
        if_true, List.length_cons] at *
      omega
    · simp [countImageKey, List.filter_cons, ha]
      simpa [countImageKey] using ih h.2

theorem imageCreate_any (now : Nat) (d : ImageData) (tbl : List ImageRow) :
    (imageCreate now d tbl).any
      (fun r => r.tweet_id = d.tweetDbId ∧ r.image_url = d.imageUrl) = true := by
  unfold imageCreate
  by_cases h : tbl.any (fun r => r.tweet_id = d.tweetDbId ∧ r.image_url = d.imageUrl)
  · rw [if_pos h, List.any_eq_true]
    rw [List.any_eq_true] at h
    obtain ⟨r, hr, hk⟩ := h
    exact ⟨imageUpsertRow now d r, List.mem_map_of_mem _ hr,
      by simpa [(imageUpsertRow_key now d r).1, (imageUpsertRow_key now d r).2]
        using hk⟩
  · rw [if_neg h, List.any_eq_true]
    refine ⟨_, List.mem_append_right _ (List.mem_singleton.2 rfl), by simp⟩

theorem imageCreate_conflict_fields (now : Nat) (d : ImageData)
    (tbl : List ImageRow) (r : ImageRow)
    (hr : r ∈ tbl.map (imageUpsertRow now d))
    (hk : r.tweet_id = d.tweetDbId ∧ r.image_url = d.imageUrl) :
    r.status = d.status ∧ r.status_reason = d.statusReason ∧
      r.file_size = d.fileSize ∧
      (d.status = "downloaded" → r.downloaded_at = some now) := by
  obtain ⟨r0, hr0, rfl⟩ := List.mem_map.1 hr
  by_cases h0 : r0.tweet_id = d.tweetDbId ∧ r0.image_url = d.imageUrl
  · unfold imageUpsertRow
    rw [if_pos h0]
    refine ⟨rfl, rfl, rfl, fun hdl => ?_⟩
    simp [hdl]
  · rw [(imageUpsertRow_key now d r0).1, (imageUpsertRow_key now d r0).2] at hk
    exact absurd hk h0

theorem countImageKey_first_create (now : Nat) (d : ImageData)
    (tbl : List ImageRow)
    (h : tbl.Pairwise
      (fun a b => a.tweet_id ≠ b.tweet_id ∨ a.image_url ≠ b.image_url)) :
    countImageKey d.tweetDbId d.imageUrl (imageCreate now d tbl) = 1 := by
  unfold imageCreate
  by_cases h0 : tbl.any (fun r => r.tweet_id = d.tweetDbId ∧ r.image_url = d.imageUrl)
  · rw [if_pos h0, countImageKey_map]
    have := countImageKey_pos d.tweetDbId d.imageUrl tbl h0
    have := countImageKey_le_one d.tweetDbId d.imageUrl tbl h
    omega
  · rw [if_neg h0]
    have h0f : tbl.any
        (fun r => r.tweet_id = d.tweetDbId ∧ r.image_url = d.imageUrl) = false := by
      rw [List.any_eq_false]
      intro r hr hk
      exact h0 (List.any_eq_true.2 ⟨r, hr, hk⟩)
    have h1 : countImageKey d.tweetDbId d.imageUrl tbl = 0 :=
      countImageKey_zero _ _ _ h0f
    simp only [countImageKey, List.filter_append, List.length_append] at h1 ⊢
    rw [h1]
    simp

/-- C1: for both Work Items (`tweets`, keyed by `tweet_id`) and Artifacts
(`images`, keyed by `(tweet_id, image_url)`), a `create` whose key already
exists updates the mutable fields in place and refreshes the timestamp
instead of erroring or adding a row: after two `create` calls with the same
key and different statuses, exactly one row exists for that key, it carries
the second call's status (and mutable fields, with `processed_at`
refreshed to the second call's clock; for images `downloaded_at` is
refreshed when the second status is `'downloaded'`), and the row count
equals the count after the first call. -/
theorem upsert_idempotent_same_key
    (now1 now2 : Nat) (d1 d2 : TweetData) (tt : List TweetRow)
    (i1 i2 : ImageData) (it : List ImageRow)
    (hkT : d1.tweetId = d2.tweetId)
    (hsT : d1.status.getD "processed" ≠ d2.status.getD "processed")
    (huT : tt.Pairwise (fun a b => a.tweet_id ≠ b.tweet_id))
    (hkI1 : i1.tweetDbId = i2.tweetDbId) (hkI2 : i1.imageUrl = i2.imageUrl)
    (hsI : i1.status ≠ i2.status)
    (huI : it.Pairwise
      (fun a b => a.tweet_id ≠ b.tweet_id ∨ a.image_url ≠ b.image_url)) :
    countTweetKey d2.tweetId (tweetCreate now2 d2 (tweetCreate now1 d1 tt)) = 1 ∧
    (tweetCreate now2 d2 (tweetCreate now1 d1 tt)).length =
      (tweetCreate now1 d1 tt).length ∧
    (∀ r ∈ tweetCreate now2 d2 (tweetCreate now1 d1 tt),
      r.tweet_id = d2.tweetId →
      r.status = d2.status.getD "processed" ∧ r.image_count = d2.imageCount ∧
        r.processed_at = now2) ∧
    countImageKey i2.tweetDbId i2.imageUrl
      (imageCreate now2 i2 (imageCreate now1 i1 it)) = 1 ∧
    (imageCreate now2 i2 (imageCreate now1 i1 it)).length =
      (imageCreate now1 i1 it).length ∧
    (∀ r ∈ imageCreate now2 i2 (imageCreate now1 i1 it),
      r.tweet_id = i2.tweetDbId ∧ r.image_url = i2.imageUrl →
      r.status = i2.status ∧ r.status_reason = i2.statusReason ∧
        r.file_size = i2.fileSize ∧
        (i2.status = "downloaded" → r.downloaded_at = some now2)) := by
  have hanyT : (tweetCreate now1 d1 tt).any
      (fun r => r.tweet_id = d2.tweetId) = true := by
    have := tweetCreate_any now1 d1 tt
    rwa [hkT] at this
  have hmapT : tweetCreate now2 d2 (tweetCreate now1 d1 tt) =
      (tweetCreate now1 d1 tt).map (tweetUpsertRow now2 d2) := by
    generalize tweetCreate now1 d1 tt = t1 at hanyT ⊢
    unfold tweetCreate
    rw [if_pos hanyT]
  have hcntT : countTweetKey d2.tweetId (tweetCreate now1 d1 tt) = 1 := by
    have := countTweetKey_first_create now1 d1 tt huT
    rwa [hkT] at this
  have hanyI : (imageCreate now1 i1 it).any
      (fun r => r.tweet_id = i2.tweetDbId ∧ r.image_url = i2.imageUrl) = true := by
    have := imageCreate_any now1 i1 it
    rwa [hkI1, hkI2] at this
  have hmapI : imageCreate now2 i2 (imageCreate now1 i1 it) =
      (imageCreate now1 i1 it).map (imageUpsertRow now2 i2) := by
    generalize imageCreate now1 i1 it = t1 at hanyI ⊢
    unfold imageCreate
    rw [if_pos hanyI]
  have hcntI : countImageKey i2.tweetDbId i2.imageUrl
      (imageCreate now1 i1 it) = 1 := by
    have := countImageKey_first_create now1 i1 it huI
    rwa [hkI1, hkI2] at this
  refine ⟨?_, ?_, ?_, ?_, ?_, ?_⟩
  · rw [hmapT, countTweetKey_map, hcntT]
  · rw [hmapT, List.length_map]
  · intro r hr hk
    rw [hmapT] at hr
    exact tweetCreate_conflict_fields now2 d2 _ r hr hk
  · rw [hmapI, countImageKey_map, hcntI]
  · rw [hmapI, List.length_map]
  · intro r hr hk
    rw [hmapI] at hr
    exact imageCreate_conflict_fields now2 i2 _ r hr hk

/-- Witness for C1: empty tables, a tweet first recorded `failed` then
`processed`, and an image first recorded `pending` then `downloaded`. -/
theorem upsert_idempotent_same_key_witness :
    (TweetData.mk "9001" 1 "u" none 0 (some "failed")).tweetId =
      (TweetData.mk "9001" 1 "u" none 2 (some "processed")).tweetId ∧
    countTweetKey "9001"
      (tweetCreate 20 (TweetData.mk "9001" 1 "u" none 2 (some "processed"))
        (tweetCreate 10 (TweetData.mk "9001" 1 "u" none 0 (some "failed")) [])) = 1 ∧
    countImageKey 7 "img"
      (imageCreate 20 (ImageData.mk 7 "img" "f" none "downloaded" none (some 42))
        (imageCreate 10 (ImageData.mk 7 "img" "f" none "pending" none none) [])) = 1 ∧
    (tweetCreate 20 (TweetData.mk "9001" 1 "u" none 2 (some "processed"))
        (tweetCreate 10 (TweetData.mk "9001" 1 "u" none 0 (some "failed")) [])).length =
      (tweetCreate 10 (TweetData.mk "9001" 1 "u" none 0 (some "failed")) []).length :=
  ⟨rfl,
    (upsert_idempotent_same_key 10 20
      (TweetData.mk "9001" 1 "u" none 0 (some "failed"))
      (TweetData.mk "9001" 1 "u" none 2 (some "processed")) []
      (ImageData.mk 7 "img" "f" none "pending" none none)
      (ImageData.mk 7 "img" "f" none "downloaded" none (some 42)) []
      rfl (by decide) (by decide) rfl rfl (by decide) (by decide)).1,
    (upsert_idempotent_same_key 10 20
      (TweetData.mk "9001" 1 "u" none 0 (some "failed"))
      (TweetData.mk "9001" 1 "u" none 2 (some "processed")) []
      (ImageData.mk 7 "img" "f" none "pending" none none)
      (ImageData.mk 7 "img" "f" none "downloaded" none (some 42)) []
      rfl (by decide) (by decide) rfl rfl (by decide) (by decide)).2.2.2.1,
    (upsert_idempotent_same_key 10 20
      (TweetData.mk "9001" 1 "u" none 0 (some "failed"))
      (TweetData.mk "9001" 1 "u" none 2 (some "processed")) []
      (ImageData.mk 7 "img" "f" none "pending" none none)
      (ImageData.mk 7 "img" "f" none "downloaded" none (some 42)) []
      rfl (by decide) (by decide) rfl rfl (by decide) (by decide)).2.1⟩

/-! ## C8 — username normalization across entry points -/

theorem jsToLowerChar_eq_at {c : Char} (h : jsToLowerChar c = '@') : c = '@' := by
  unfold jsToLowerChar at h
  split at h <;> simp_all

theorem stripLeadingAt_cons (c : Char) (cs : List Char) :
    stripLeadingAt (c :: cs) = if c = '@' then cs else c :: cs := rfl

/-- On a string that does not start with `'@'`, normalization is just
lowercasing (the strip is a no-op, because lowercasing cannot introduce a
leading `'@'`). -/
theorem normalizeUsername_no_at {u : List Char} (hu : u.head? ≠ some '@') :
    normalizeUsername u = jsToLower u := by
  cases u with
  | nil => rfl
  | cons c cs =>
    have hc' : c ≠ '@' := by simpa using hu
    have hc : jsToLowerChar c ≠ '@' := fun h => hc' (jsToLowerChar_eq_at h)
    simp [normalizeUsername, jsToLower, stripLeadingAt_cons, hc]

theorem find?_append_of_none {α : Type} {p : α → Bool} {l1 l2 : List α}
    (h : l1.find? p = none) : (l1 ++ l2).find? p = l2.find? p := by
  induction l1 with
  | nil => rfl
  | cons a t ih =>
    rw [List.find?_cons] at h
    rw [List.cons_append, List.find?_cons]
    cases hp : p a with
    | true => simp [hp] at h
    | false =>
      simp only [hp] at h ⊢
      exact ih h

/-- C8 counterexample: the normalization lowercases first and strips only
one leading `'@'`, so for the username string `u = "@bob"`, the variant
`'@' + u = "@@bob"` normalizes to `"@bob"`, not `"bob"`: two `getOrCreate`
calls with `u` and `'@' + u` create two distinct account rows. -/
theorem username_double_at_counterexample :
    normalizeUsername ('@' :: "@bob".toList) ≠ normalizeUsername "@bob".toList ∧
    (getOrCreate 0 "@bob".toList []).2.length = 1 ∧
    (getOrCreate 1 ('@' :: "@bob".toList)
      (getOrCreate 0 "@bob".toList []).2).2.length = 2 := by
  refine ⟨by decide, by decide, by decide⟩

/-- C8 (amended): for every username `u` that does not itself start with
`'@'`, the account-keyed entry points treat `u`, `'@' + u`, and any case
variant of `u` identically: they normalize to the same key, `getOrCreate`
after a first call returns the same row without growing the table, and
`findIncompleteRun` / `getLastTweetId` address the same stored record. -/
theorem username_variants_address_same_record
    (u : List Char) (hu : u.head? ≠ some '@') :
    normalizeUsername ('@' :: u) = normalizeUsername u ∧
    (∀ v, jsToLower v = jsToLower u →
      normalizeUsername v = normalizeUsername u) ∧
    (∀ (w : List Char) (tbl : List AccountRow) (f1 f2 : Nat),
      normalizeUsername w = normalizeUsername u →
      (getOrCreate f2 w (getOrCreate f1 u tbl).2).1 =
        (getOrCreate f1 u tbl).1 ∧
      (getOrCreate f2 w (getOrCreate f1 u tbl).2).2 =
        (getOrCreate f1 u tbl).2) ∧
    (∀ (w : List Char) (runs : List RunRow),
      normalizeUsername w = normalizeUsername u →
      findIncompleteRun w runs = findIncompleteRun u runs) ∧
    (∀ (w : List Char) (tbl : List AccountRow),
      normalizeUsername w = normalizeUsername u →
      getLastTweetIdRow w tbl = getLastTweetIdRow u tbl) := by
  refine ⟨?_, ?_, ?_, ?_, ?_⟩
  · have h1 : normalizeUsername ('@' :: u) = jsToLower u := by
      simp [normalizeUsername, jsToLower, stripLeadingAt_cons,
        show jsToLowerChar '@' = '@' from rfl]
    rw [h1, normalizeUsername_no_at hu]
  · intro v hv
    unfold normalizeUsername
    rw [hv]
  · intro w tbl f1 f2 hw
    unfold getOrCreate
    rw [hw]
    cases hfind : tbl.find? (fun r => r.username = normalizeUsername u) with
    | some r => simp [hfind]
    | none =>
      simp only [hfind]
      have h2 : ((tbl ++ [AccountRow.mk f1 (normalizeUsername u)]).find?
          (fun r => r.username = normalizeUsername u)) =
          some (AccountRow.mk f1 (normalizeUsername u)) := by
        rw [find?_append_of_none hfind]
        simp [List.find?_cons]
      simp [h2]
  · intro w runs hw
    unfold findIncompleteRun
    rw [hw]
  · intro w tbl hw
    unfold getLastTweetIdRow
    rw [hw]

/-- Witness for C8 (amended) at `u = "bob"`. -/
theorem username_variants_address_same_record_witness :
    "bob".toList.head? ≠ some '@' ∧
    (normalizeUsername ('@' :: "bob".toList) = normalizeUsername "bob".toList ∧
      (∀ v, jsToLower v = jsToLower "bob".toList →
        normalizeUsername v = normalizeUsername "bob".toList) ∧
      (∀ (w : List Char) (tbl : List AccountRow) (f1 f2 : Nat),
        normalizeUsername w = normalizeUsername "bob".toList →
        (getOrCreate f2 w (getOrCreate f1 "bob".toList tbl).2).1 =
          (getOrCreate f1 "bob".toList tbl).1 ∧
        (getOrCreate f2 w (getOrCreate f1 "bob".toList tbl).2).2 =
          (getOrCreate f1 "bob".toList tbl).2) ∧
      (∀ (w : List Char) (runs : List RunRow),
        normalizeUsername w = normalizeUsername "bob".toList →
        findIncompleteRun w runs = findIncompleteRun "bob".toList runs) ∧
      (∀ (w : List Char) (tbl : List AccountRow),
        normalizeUsername w = normalizeUsername "bob".toList →
        getLastTweetIdRow w tbl = getLastTweetIdRow "bob".toList tbl)) :=
  ⟨by decide, username_variants_address_same_record "bob".toList (by decide)⟩

/-! ## C6 — semaphore release semantics -/

theorem semAcquire_nonneg (c : Nat) (s : SemState) (h : 0 ≤ s.current) :
    0 ≤ (semAcquire c s).current := by
  unfold semAcquire
  split <;> dsimp only <;> omega

theorem semRelease_nonneg (c : Nat) (s : SemState) (h : 0 ≤ s.current) :
    0 ≤ (semRelease c s).current := by
  by_cases hc : c ∈ s.holding
  · cases hwct : s.waiting with
    | nil =>
      simp only [semRelease, hc, if_true, hwct]
      split <;> omega
    | cons a l =>
      simp only [semRelease, hc, if_true, hwct]
      split <;> omega
  · simpa only [semRelease, hc, if_false] using h

theorem semResume_nonneg (c : Nat) (s : SemState) (h : 0 ≤ s.current) :
    0 ≤ (semResume c s).current := by
  by_cases hc : c ∈ s.woken
  · simp only [semResume, hc, if_true]
    omega
  · simpa only [semResume, hc, if_false] using h

theorem execSem_nonneg (trace : List SemStep) (s : SemState)
    (h : 0 ≤ s.current) : 0 ≤ (execSem trace s).current := by
  induction trace generalizing s with
  | nil => exact h
  | cons step rest ih =>
    cases step with
    | acquire c => exact ih _ (semAcquire_nonneg c s h)
    | release c => exact ih _ (semRelease_nonneg c s h)
    | resume c => exact ih _ (semResume_nonneg c s h)

/-- C6 counterexample: the "no re-check race" part of the claim is false.
With `max = 1`: caller 0 holds the permit, caller 1 waits; caller 0's
`release()` decrements the count and wakes caller 1, but before caller 1's
continuation runs, caller 2's `acquire()` sees `current < max` and takes
the permit; caller 1 then resumes and also increments.  Both 1 and 2 end up
holding, and the in-use count is 2 > max = 1 — the freed permit was not
handed to the woken waiter exclusively. -/
theorem semaphore_handoff_race_counterexample :
    (execSem [.acquire 0, .acquire 1, .release 0, .acquire 2, .resume 1]
        (initSem 1)).current = 2 ∧
    (1 : Int) < 2 ∧
    (execSem [.acquire 0, .acquire 1, .release 0, .acquire 2, .resume 1]
        (initSem 1)).holding = [1, 2] := by
  refine ⟨by decide, by decide, by decide⟩

/-- C6 (amended): `release()` with callers waiting wakes exactly one waiter
(the oldest: the head of the FIFO is moved to the woken set and the rest
are untouched), but the freed permit is returned to the shared count before
the woken waiter resumes, so an `acquire` arriving in that window can take
it and the count of permits in use can exceed `max`; the in-use count
itself never goes negative, since `release()` clamps it at zero. -/
theorem semaphore_wakes_one_and_count_nonneg
    (max : Nat) (trace : List SemStep) (s : SemState) (c w : Nat)
    (ws : List Nat) (hc : c ∈ s.holding) (hw : s.waiting = w :: ws) :
    0 ≤ (execSem trace (initSem max)).current ∧
    (semRelease c s).waiting = ws ∧
    (semRelease c s).woken = s.woken ++ [w] := by
  refine ⟨execSem_nonneg trace (initSem max) (le_refl 0), ?_, ?_⟩ <;>
    simp [semRelease, hc, hw]

/-- Witness for C6 (amended). -/
theorem semaphore_wakes_one_and_count_nonneg_witness :
    0 ∈ [0] ∧
    (SemState.mk 1 1 [5] [] [0]).waiting = 5 :: [] ∧
    (0 ≤ (execSem [.acquire 0, .release 0] (initSem 1)).current ∧
      (semRelease 0 (SemState.mk 1 1 [5] [] [0])).waiting = [] ∧
      (semRelease 0 (SemState.mk 1 1 [5] [] [0])).woken = [] ++ [5]) :=
  ⟨by decide, rfl,
    semaphore_wakes_one_and_count_nonneg 1 [.acquire 0, .release 0]
      (SemState.mk 1 1 [5] [] [0]) 0 5 [] (by decide) rfl⟩

/-! ## C5 — pool exclusivity -/

theorem lt_length_of_get?_eq_some {α : Type} {l : List α} {i : Nat} {a : α}
    (h : l.get? i = some a) : i < l.length := by
  by_contra hc
  rw [List.get?_eq_none.2 (by omega)] at h
  cases h

theorem firstIdxP_get {p : Slot → Bool} {l : List Slot} {i : Nat}
    (h : firstIdxP p l = some i) :
    ∃ sl, l.get? i = some sl ∧ p sl = true := by
  induction l generalizing i with
  | nil => simp [firstIdxP] at h
  | cons x xs ih =>
    unfold firstIdxP at h
    by_cases hx : p x
    · rw [if_pos hx] at h
      injection h with h
      subst h
      exact ⟨x, rfl, hx⟩
    · rw [if_neg hx] at h
      obtain ⟨j, hj, rfl⟩ := Option.map_eq_some'.1 h
      obtain ⟨sl, hsl, hp⟩ := ih hj
      exact ⟨sl, by simpa using hsl, hp⟩

theorem firstIdxP_none {p : Slot → Bool} {l : List Slot}
    (h : ∀ sl ∈ l, p sl = false) : firstIdxP p l = none := by
  induction l with
  | nil => rfl
  | cons x xs ih =>
    unfold firstIdxP
    rw [if_neg (by simp [h x (List.mem_cons_self x xs)]),
      ih (fun y hy => h y (List.mem_cons_of_mem x hy))]
    rfl

theorem isIdleLive_eq {sl : Slot} (h : isIdleLive sl = true) :
    sl = ⟨.idle, true⟩ := by
  cases sl with
  | mk st lv =>
    simp only [isIdleLive, decide_eq_true_eq, Bool.decide_and] at h
    simp at h
    simp [h.1, h.2]

theorem setStatus_of_get? {l : List Slot} {i : Nat} {sl : Slot}
    (h : l.get? i = some sl) (st : SlotStatus) :
    setStatus i st l = l.set i { sl with status := st } := by
  unfold setStatus
  rw [h]

/-- Handing out slot `i` (previously not busy) to caller `c` preserves
exclusivity, whatever busy slot value is installed and whatever happens to
`waiting` and `tasks`. -/
theorem poolInv_handout (c : Nat) {s : PoolState} {i : Nat} {sl sl' : Slot}
    (hgi : s.slots.get? i = some sl) (hst : sl.status ≠ .busy)
    (hb : sl'.status = .busy) (h : poolInv s)
    (w : List Nat) (tk : List PoolTask) :
    poolInv ⟨s.slots.set i sl', w, (c, i) :: s.holders, tk⟩ := by
  obtain ⟨hpw, hbusy⟩ := h
  have hlen : i < s.slots.length := lt_length_of_get?_eq_some hgi
  have hni : ∀ p ∈ s.holders, i ≠ p.2 := by
    intro p hp hip
    have hbp := hbusy p hp
    rw [statusAt, ← hip, hgi] at hbp
    simp only [Option.map_some'] at hbp
    injection hbp with hbp
    exact hst hbp
  constructor
  · rw [List.pairwise_cons]
    exact ⟨fun p hp => hni p hp, hpw⟩
  · intro p hp
    rw [List.mem_cons] at hp
    rcases hp with rfl | hp
    · dsimp only [statusAt]
      rw [List.get?_set_of_lt _ _ hlen]
      simp [hb]
    · dsimp only [statusAt]
      rw [List.get?_set_of_lt' _ _ hlen, if_neg (hni p hp)]
      exact hbusy p hp

/-- Under slot-distinctness, every holder surviving the erase of `(c, i)`
holds a slot other than `i`. -/
theorem mem_erase_slot_ne {hs : List (Nat × Nat)} {c i : Nat}
    (hpw : hs.Pairwise (fun a b => a.2 ≠ b.2)) (hmem : (c, i) ∈ hs) :
    ∀ p ∈ hs.erase (c, i), p.2 ≠ i := by
  induction hs with
  | nil => simp
  | cons a t ih =>
    rw [List.pairwise_cons] at hpw
    by_cases ha : a = (c, i)
    · subst ha
      rw [List.erase_cons_head]
      intro p hp hpi
      exact (hpw.1 p hp) hpi.symm
    · have hmem' : (c, i) ∈ t := by
        rw [List.mem_cons] at hmem
        exact hmem.resolve_left (fun hh => ha hh.symm)
      rw [List.erase_cons_tail (by simpa using ha)]
      intro p hp
      rw [List.mem_cons] at hp
      rcases hp with rfl | hp
      · exact fun hpi => (hpw.1 (c, i) hmem') (by simpa using hpi)
      · exact ih hpw.2 hmem' p hp

/-- In a healthy pool, an acquire either hands out an idle slot or
enqueues the caller (the crashed-scan is vacuous), preserving health and
exclusivity. -/
theorem inv_acquireStep (c : Nat) {s : PoolState}
    (hh : healthy s) (hp : poolInv s) :
    healthy (acquireStep c s) ∧ poolInv (acquireStep c s) := by
  have hnoc : firstIdxP isCrashed s.slots = none :=
    firstIdxP_none (fun sl hsl => by
      simp only [isCrashed, decide_eq_false_iff_not]
      exact (hh.1 sl hsl).1)
  cases hidle : firstIdxP isIdleLive s.slots with
  | some i =>
    obtain ⟨sl, hgi, hil⟩ := firstIdxP_get hidle
    have hsl := isIdleLive_eq hil
    subst hsl
    have heq : acquireStep c s =
        { s with slots := setStatus i SlotStatus.busy s.slots,
                 holders := (c, i) :: s.holders } := by
      simp only [acquireStep, hidle]
    rw [heq, setStatus_of_get? hgi]
    constructor
    · constructor
      · intro sl' hsl'
        rcases List.mem_or_eq_of_mem_set hsl' with hm | rfl
        · exact hh.1 sl' hm
        · exact ⟨by simp, rfl⟩
      · exact hh.2
    · exact poolInv_handout c hgi (by simp) rfl hp s.waiting s.tasks
  | none =>
    have heq : acquireStep c s = { s with waiting := s.waiting ++ [c] } := by
      simp only [acquireStep, hidle, hnoc]
    rw [heq]
    exact ⟨⟨hh.1, hh.2⟩, hp.1, hp.2⟩

/-- In a healthy pool, a holder's release takes the valid-page branch:
the slot goes idle or straight to the oldest waiter, preserving health
and exclusivity. -/
theorem inv_releaseStep (c i : Nat) {s : PoolState}
    (hh : healthy s) (hp : poolInv s) :
    healthy (releaseStep c i s) ∧ poolInv (releaseStep c i s) := by
  obtain ⟨hpw, hbusy⟩ := hp
  by_cases hmem : (c, i) ∈ s.holders
  · have hbi := hbusy _ hmem
    rw [statusAt] at hbi
    cases hgi : s.slots.get? i with
    | none => rw [hgi] at hbi; cases hbi
    | some sl =>
      rw [hgi] at hbi
      simp only [Option.map_some'] at hbi
      injection hbi with hbi
      have hlive : sl.live = true := (hh.1 sl (List.get?_mem hgi)).2
      have hslv : sl = ⟨SlotStatus.busy, true⟩ := by
        cases sl with
        | mk a b =>
          simp only [Slot.mk.injEq]
          exact ⟨hbi, hlive⟩
      subst hslv
      have hlen : i < s.slots.length := lt_length_of_get?_eq_some hgi
      have hne := mem_erase_slot_ne hpw hmem
      have hpw' : (s.holders.erase (c, i)).Pairwise (fun a b => a.2 ≠ b.2) :=
        hpw.sublist (List.erase_sublist _ _)
      have hmemset : ∀ sl' ∈ s.slots.set i (⟨SlotStatus.idle, true⟩ : Slot),
          sl'.status ≠ SlotStatus.crashed ∧ sl'.live = true := by
        intro sl' hsl'
        rcases List.mem_or_eq_of_mem_set hsl' with hm | rfl
        · exact hh.1 sl' hm
        · exact ⟨by simp, rfl⟩
      cases hw : s.waiting with
      | nil =>
        have heq : releaseStep c i s =
            { s with holders := s.holders.erase (c, i),
                     slots := s.slots.set i ⟨SlotStatus.idle, true⟩ } := by
          simp only [releaseStep, hmem, if_true, releasePage, hgi,
            setStatus_of_get? hgi, hw]
        rw [heq]
        refine ⟨⟨hmemset, hh.2⟩, hpw', ?_⟩
        intro p hpmem
        dsimp only [statusAt]
        rw [List.get?_set_of_lt' _ _ hlen,
          if_neg (fun hip => (hne p hpmem) hip.symm)]
        exact hbusy p (List.mem_of_mem_erase hpmem)
      | cons w ws =>
        have hgi2 : (s.slots.set i (⟨SlotStatus.idle, true⟩ : Slot)).get? i
            = some (⟨SlotStatus.idle, true⟩ : Slot) := by
          rw [List.get?_set_of_lt _ _ hlen]
          simp
        have heq : releaseStep c i s =
            { s with holders := (w, i) :: s.holders.erase (c, i),
                     waiting := ws,
                     slots := s.slots.set i ⟨SlotStatus.busy, true⟩ } := by
          simp only [releaseStep, hmem, if_true, releasePage, hgi,
            setStatus_of_get? hgi, hw, setStatus_of_get? hgi2, List.set_set]
        rw [heq]
        refine ⟨⟨?_, hh.2⟩, ?_, ?_⟩
        · intro sl' hsl'
          rcases List.mem_or_eq_of_mem_set hsl' with hm | rfl
          · exact hh.1 sl' hm
          · exact ⟨by simp, rfl⟩
        · rw [List.pairwise_cons]
          exact ⟨fun p hpmem => fun hip => (hne p hpmem) hip.symm, hpw'⟩
        · intro p hpmem
          rw [List.mem_cons] at hpmem
          rcases hpmem with rfl | hpmem
          · dsimp only [statusAt]
            rw [List.get?_set_of_lt _ _ hlen]
            simp
          · dsimp only [statusAt]
            rw [List.get?_set_of_lt' _ _ hlen,
              if_neg (fun hip => (hne p hpmem) hip.symm)]
            exact hbusy p (List.mem_of_mem_erase hpmem)
  · have heq : releaseStep c i s = s := by
      simp only [releaseStep, hmem, if_false]
    rw [heq]
    exact ⟨hh, hpw, hbusy⟩

/-- With nothing suspended, every task-resumption step is a no-op. -/
theorem tasks_empty_steps (c : Nat) {s : PoolState} (ht : s.tasks = []) :
    acqRecreateOkStep c s = s ∧ acqRecreateFailStep c s = s ∧
    satRunStep s = s ∧ satRecreateOkStep s = s ∧
    satRecreateFailStep s = s := by
  refine ⟨?_, ?_, ?_, ?_, ?_⟩
  · unfold acqRecreateOkStep
    rw [ht]
    rfl
  · unfold acqRecreateFailStep
    rw [ht]
    rfl
  · unfold satRunStep
    rw [ht]
    rfl
  · unfold satRecreateOkStep
    rw [ht]
    rfl
  · unfold satRecreateFailStep
    rw [ht]
    rfl

/-- Crash-free steps preserve health and exclusivity. -/
theorem inv_poolStep {st : PoolStep} (hst : nonCrash st = true)
    {s : PoolState} (hh : healthy s) (hp : poolInv s) :
    healthy (poolStep st s) ∧ poolInv (poolStep st s) := by
  cases st with
  | acquire c => exact inv_acquireStep c hh hp
  | release c i => exact inv_releaseStep c i hh hp
  | crash i => simp [nonCrash] at hst
  | acqRecreateOk c =>
    rw [show poolStep (.acqRecreateOk c) s = s from (tasks_empty_steps c hh.2).1]
    exact ⟨hh, hp⟩
  | acqRecreateFail c =>
    rw [show poolStep (.acqRecreateFail c) s = s from (tasks_empty_steps c hh.2).2.1]
    exact ⟨hh, hp⟩
  | satRun =>
    rw [show poolStep .satRun s = s from (tasks_empty_steps 0 hh.2).2.2.1]
    exact ⟨hh, hp⟩
  | satRecreateOk =>
    rw [show poolStep .satRecreateOk s = s from (tasks_empty_steps 0 hh.2).2.2.2.1]
    exact ⟨hh, hp⟩
  | satRecreateFail =>
    rw [show poolStep .satRecreateFail s = s from (tasks_empty_steps 0 hh.2).2.2.2.2]
    exact ⟨hh, hp⟩

theorem inv_execPool {steps : List PoolStep}
    (hcf : steps.all nonCrash = true) {s : PoolState}
    (hh : healthy s) (hp : poolInv s) :
    healthy (execPool steps s) ∧ poolInv (execPool steps s) := by
  induction steps generalizing s with
  | nil => exact ⟨hh, hp⟩
  | cons st rest ih =>
    rw [List.all_cons, Bool.and_eq_true] at hcf
    obtain ⟨h1, h2⟩ := inv_poolStep hcf.1 hh hp
    exact ih hcf.2 h1 h2

theorem healthy_initPool (n : Nat) : healthy (initPool n) := by
  constructor
  · intro sl hsl
    rw [List.eq_of_mem_replicate hsl]
    exact ⟨by simp, rfl⟩
  · rfl

theorem poolInv_initPool (n : Nat) : poolInv (initPool n) := by
  refine ⟨List.Pairwise.nil, ?_⟩
  intro p hp
  simp [initPool] at hp

/-- Pool slot profile after `k` of `n` slots have been handed out in
index order: a prefix of busy slots followed by idle ones, all live. -/
def fillK (n k : Nat) : List Slot :=
  List.replicate k ⟨.busy, true⟩ ++ List.replicate (n - k) ⟨.idle, true⟩

theorem fillK_zero (n : Nat) : fillK n 0 = List.replicate n ⟨.idle, true⟩ := by
  simp [fillK]

theorem fillK_succ (n k : Nat) :
    fillK n (k + 1) = ⟨.busy, true⟩ :: fillK (n - 1) k := by
  have hsub : n - (k + 1) = n - 1 - k := by omega
  simp [fillK, List.replicate_succ, hsub]

theorem fillK_full (n : Nat) : fillK n n = List.replicate n ⟨.busy, true⟩ := by
  simp [fillK]

theorem firstIdxP_fillK {n k : Nat} (h : k < n) :
    firstIdxP isIdleLive (fillK n k) = some k := by
  induction k generalizing n with
  | zero =>
    obtain ⟨m, rfl⟩ : ∃ m, n = m + 1 := ⟨n - 1, by omega⟩
    rw [fillK_zero, List.replicate_succ]
    unfold firstIdxP
    rw [if_pos (by decide)]
  | succ k ih =>
    rw [fillK_succ]
    unfold firstIdxP
    rw [if_neg (by decide), ih (by omega)]
    rfl

theorem fillK_get?_k {n k : Nat} (h : k < n) :
    (fillK n k).get? k = some ⟨.idle, true⟩ := by
  obtain ⟨sl, hsl, hil⟩ := firstIdxP_get (firstIdxP_fillK h)
  rwa [isIdleLive_eq hil] at hsl

theorem setK_fillK {n k : Nat} (h : k < n) :
    (fillK n k).set k ⟨.busy, true⟩ = fillK n (k + 1) := by
  induction k generalizing n with
  | zero =>
    obtain ⟨m, rfl⟩ : ∃ m, n = m + 1 := ⟨n - 1, by omega⟩
    rw [fillK_zero, List.replicate_succ, fillK_succ]
    simp [List.set, fillK_zero]
  | succ k ih =>
    rw [fillK_succ, fillK_succ]
    simp only [List.set]
    rw [ih (by omega)]

theorem acquireStep_fillK (c : Nat) {n k : Nat} (h : k < n)
    (w : List Nat) (hs : List (Nat × Nat)) (tk : List PoolTask) :
    acquireStep c ⟨fillK n k, w, hs, tk⟩ =
      ⟨fillK n (k + 1), w, (c, k) :: hs, tk⟩ := by
  have heq := setStatus_of_get? (fillK_get?_k h) SlotStatus.busy
  simp only [acquireStep, firstIdxP_fillK h, heq]
  rw [setK_fillK h]

theorem execPool_acquires_fillK (cs : List Nat) :
    ∀ {n k : Nat}, k + cs.length ≤ n → ∀ (w : List Nat)
      (hs : List (Nat × Nat)) (tk : List PoolTask),
    ∃ hs2, execPool (cs.map .acquire) ⟨fillK n k, w, hs, tk⟩ =
      ⟨fillK n (k + cs.length), w, hs2, tk⟩ := by
  induction cs with
  | nil =>
    intro n k h w hs tk
    exact ⟨hs, by simp [execPool]⟩
  | cons c ct ih =>
    intro n k h w hs tk
    rw [List.length_cons] at h
    have hk : k < n := by omega
    obtain ⟨hs2, hrec⟩ := ih (n := n) (k := k + 1) (by omega) w ((c, k) :: hs) tk
    refine ⟨hs2, ?_⟩
    rw [List.map_cons]
    show execPool (ct.map .acquire) (acquireStep c ⟨fillK n k, w, hs, tk⟩) = _
    rw [acquireStep_fillK c hk, hrec, List.length_cons,
      show k + 1 + ct.length = k + (ct.length + 1) from by omega]

theorem acquireStep_all_busy (c : Nat) (w : List Nat)
    (hs : List (Nat × Nat)) (tk : List PoolTask) (n : Nat) :
    acquireStep c ⟨List.replicate n ⟨.busy, true⟩, w, hs, tk⟩ =
      ⟨List.replicate n ⟨.busy, true⟩, w ++ [c], hs, tk⟩ := by
  have h1 : firstIdxP isIdleLive (List.replicate n (⟨.busy, true⟩ : Slot)) = none :=
    firstIdxP_none (by
      intro x hx
      rw [List.eq_of_mem_replicate hx]
      decide)
  have h2 : firstIdxP isCrashed (List.replicate n (⟨.busy, true⟩ : Slot)) = none :=
    firstIdxP_none (by
      intro x hx
      rw [List.eq_of_mem_replicate hx]
      decide)
  unfold acquireStep
  simp only [h1, h2]

/-- C5 counterexample: with page-crash events — which the source handles
explicitly and which can strike a busy, held slot — the claimed
exclusivity fails on the code.  Pool of one slot: caller 0 acquires slot
0; the page crashes while held (the `error` handler marks the slot
`'crashed'`); caller 1's `acquirePage` finds the crashed slot, recreates
it and resolves with it.  Now two unreleased acquires hold slot 0 — and
caller 1 was resolved without any holder having called release.  When
caller 0 later runs its release callback, the still-valid recreated page
makes the slot `'idle'` while caller 1 still holds it, opening it to a
third handout. -/
theorem pool_crash_double_handout_counterexample :
    (execPool [.acquire 0, .crash 0, .acquire 1, .acqRecreateOk 1]
        (initPool 1)).holders = [(1, 0), (0, 0)] ∧
    (execPool [.acquire 0, .crash 0, .acquire 1, .acqRecreateOk 1]
        (initPool 1)).waiting = [] ∧
    statusAt 0 (execPool
        [.acquire 0, .crash 0, .acquire 1, .acqRecreateOk 1, .release 0 0]
        (initPool 1)).slots = some .idle ∧
    (1, 0) ∈ (execPool
        [.acquire 0, .crash 0, .acquire 1, .acqRecreateOk 1, .release 0 0]
        (initPool 1)).holders := by
  refine ⟨by decide, by decide, by decide, by decide⟩

/-- C5 (amended): in executions without page `error`/`close` events the
pool is exclusive.  (1) From a fresh pool of `n` slots, `n` acquires with
no intervening release mark every slot busy with nobody waiting, and the
`(n+1)`-th `acquirePage` call is appended to the waiting queue without
resolving — only a release can hand it a slot.  (2) In every state
reachable by crash-free steps, no two unreleased acquires hold the same
slot index and every held slot is marked busy — a slot is marked busy
before the acquire that receives it resolves.  (3) `releasePage` with
waiters pops the oldest waiter and re-marks the slot busy in the same
step in which the waiter's promise is resolved with it.  With crash
events, exclusivity fails as the counterexample shows. -/
theorem pool_exclusive_without_crashes (n : Nat) (cs : List Nat)
    (hcs : cs.length = n) (c : Nat) :
    (∃ hs, execPool (cs.map .acquire) (initPool n) =
        ⟨List.replicate n ⟨.busy, true⟩, [], hs, []⟩ ∧
      acquireStep c ⟨List.replicate n ⟨.busy, true⟩, [], hs, []⟩ =
        ⟨List.replicate n ⟨.busy, true⟩, [c], hs, []⟩) ∧
    (∀ steps, steps.all nonCrash = true →
      healthy (execPool steps (initPool n)) ∧
        poolInv (execPool steps (initPool n))) ∧
    (∀ (s : PoolState) (d i w : Nat) (ws : List Nat),
      healthy s → poolInv s → (d, i) ∈ s.holders → s.waiting = w :: ws →
      statusAt i (releaseStep d i s).slots = some .busy ∧
      (w, i) ∈ (releaseStep d i s).holders ∧
      (releaseStep d i s).waiting = ws) := by
  refine ⟨?_, ?_, ?_⟩
  · obtain ⟨hs2, hrun⟩ := execPool_acquires_fillK cs
      (n := n) (k := 0) (by omega) [] [] []
    refine ⟨hs2, ?_, acquireStep_all_busy c [] hs2 [] n⟩
    have hinit : initPool n = ⟨fillK n 0, [], [], []⟩ := by
      rw [fillK_zero]
      rfl
    rw [hinit, hrun, Nat.zero_add, hcs, fillK_full]
  · intro steps hcf
    exact inv_execPool hcf (healthy_initPool n) (poolInv_initPool n)
  · intro s d i w ws hh hp hmem hw
    have hbi := hp.2 _ hmem
    rw [statusAt] at hbi
    cases hgi : s.slots.get? i with
    | none => rw [hgi] at hbi; cases hbi
    | some sl =>
      rw [hgi] at hbi
      simp only [Option.map_some'] at hbi
      injection hbi with hbi
      have hlive : sl.live = true := (hh.1 sl (List.get?_mem hgi)).2
      have hslv : sl = ⟨SlotStatus.busy, true⟩ := by
        cases sl with
        | mk a b =>
          simp only [Slot.mk.injEq]
          exact ⟨hbi, hlive⟩
      subst hslv
      have hlen : i < s.slots.length := lt_length_of_get?_eq_some hgi
      have hgi2 : (s.slots.set i (⟨SlotStatus.idle, true⟩ : Slot)).get? i
          = some (⟨SlotStatus.idle, true⟩ : Slot) := by
        rw [List.get?_set_of_lt _ _ hlen]
        simp
      have heq : releaseStep d i s =
          { s with holders := (w, i) :: s.holders.erase (d, i),
                   waiting := ws,
                   slots := s.slots.set i ⟨SlotStatus.busy, true⟩ } := by
        simp only [releaseStep, hmem, if_true, releasePage, hgi,
          setStatus_of_get? hgi, hw, setStatus_of_get? hgi2, List.set_set]
      rw [heq]
      refine ⟨?_, List.mem_cons_self _ _, rfl⟩
      dsimp only [statusAt]
      rw [List.get?_set_of_lt _ _ hlen]
      simp

/-- Witness for C5 (amended) at `n = 2`, acquirers 0 and 1, third caller
2, and a hand-off from holder `(0, 0)` to waiter 7 in a healthy
two-slot pool. -/
theorem pool_exclusive_without_crashes_witness :
    ([0, 1] : List Nat).length = 2 ∧
    ((∃ hs, execPool ([0, 1].map .acquire) (initPool 2) =
        ⟨List.replicate 2 ⟨.busy, true⟩, [], hs, []⟩ ∧
      acquireStep 2 ⟨List.replicate 2 ⟨.busy, true⟩, [], hs, []⟩ =
        ⟨List.replicate 2 ⟨.busy, true⟩, [2], hs, []⟩) ∧
    (∀ steps, steps.all nonCrash = true →
      healthy (execPool steps (initPool 2)) ∧
        poolInv (execPool steps (initPool 2))) ∧
    (∀ (s : PoolState) (d i w : Nat) (ws : List Nat),
      healthy s → poolInv s → (d, i) ∈ s.holders → s.waiting = w :: ws →
      statusAt i (releaseStep d i s).slots = some .busy ∧
      (w, i) ∈ (releaseStep d i s).holders ∧
      (releaseStep d i s).waiting = ws)) :=
  ⟨rfl, pool_exclusive_without_crashes 2 [0, 1] rfl 2⟩

end TwitterDownloader
